import Mathlib

/-!
Verification of the BNF arithmetic-expression parser and evaluator
(`bnf-lang.py`).

The program is shallowly embedded:

* a token is a one-character string (the tokenizer is the identity on the
  characters of the input string);
* a grammar (the Python dict `bnf_syntax`) is an association list from rule
  names to lists of alternatives, each alternative a list of symbols;
* the Python parse functions raise `ValueError`/`IndexError` (together the
  caught `ParseError`) and `KeyError` (uncaught); they are embedded as
  functions into `Option (PResult _)` where `none` models fuel exhaustion
  (the Python code has no fuel and simply does not terminate on
  left-recursive grammars), `some .parseError` models a raised
  `ValueError`/`IndexError`, and `some .keyError` models a raised `KeyError`;
* the evaluator's `TypeError` (and the `ValueError` that `int` raises on a
  non-numeric string) is the spec's `MalformedTreeError`; a `NameError` on an
  absent variable is the spec's `UnboundVariableError`; per spec section 4.3
  the ambient bindings (x, y, z) are an explicit environment parameter.

Numbers are embedded as rationals (`ℚ`): Python evaluates with exact integer
arithmetic until `operator.truediv`, and every value the claims exercise is
exactly representable.
-/

namespace BnfLang

/-- A syntax-tree node: Python represents a parse result as the pair
`(identifier, parts)` where `parts` mixes sub-trees and bare token strings.
`Tree.leaf` is a bare token; `Tree.node` is an `(identifier, parts)` pair. -/
inductive Tree where
  | node : String → List Tree → Tree
  | leaf : String → Tree

/-- Outcome of a Python parse call: a normal return, an exception from
`ParseError = (ValueError, IndexError)` (caught by the alternatives loop in
`parse`), or a `KeyError` from `syntax[identifier]` (never caught). -/
inductive PResult (α : Type) where
  | ok : α → PResult α
  | parseError : PResult α
  | keyError : PResult α

/-- A grammar: the Python dict mapping rule names to alternative lists.
(The Python parameter is named `syntax`; that word is reserved here.) -/
abbrev Grammar := List (String × List (List String))

/-- The arithmetic grammar `bnf_syntax` of the source (the name is shortened
because this development reserves the final word of the Python name). -/
def bnf_table : Grammar :=
  [ ("expression", [["term", "sumop", "expression"], ["term"]]),
    ("sumop", [["+"], ["-"]]),
    ("term", [["factor", "prodop", "term"], ["factor"]]),
    ("prodop", [["*"], ["/"]]),
    ("factor", [["constant"], ["variable"], ["(", "expression", ")"]]),
    ("variable", [["x"], ["y"], ["z"]]),
    ("constant", [["digit", "constant"], ["digit"]]),
    ("digit", [["0"], ["1"], ["2"], ["3"], ["4"], ["5"], ["6"], ["7"], ["8"], ["9"]]) ]

/-- The signature of a recursive call into `parse` with the tokens, grammar
and remaining fuel already fixed: position and identifier to result. -/
abbrev Recur := Nat → String → Option (PResult (Nat × Tree))

/-- `parse_part(tokens, j, part, syntax)`: a symbol that is a grammar key is
parsed recursively; otherwise it is a terminal, matched against `tokens[j]`
(`IndexError` when `j` is out of range, `ValueError` on a mismatch). -/
def parse_part (recur : Recur) (tokens : List String) (j : Nat) (part : String)
    (g : Grammar) : Option (PResult (Nat × Tree)) :=
  if (List.lookup part g).isSome then
    recur j part
  else
    match tokens[j]? with
    | some tok => if part = tok then some (.ok (j + 1, .leaf tok)) else some .parseError
    | none => some .parseError

/-- `parse_rule(tokens, i, rule, syntax)`: parse the symbols of one
alternative left to right, threading the position and collecting the parts;
the first failing symbol aborts the whole alternative. -/
def parse_rule (recur : Recur) (tokens : List String) :
    Nat → List String → Grammar → Option (PResult (Nat × List Tree))
  | i, [], _g => some (.ok (i, []))
  | i, part :: rest, g =>
    match parse_part recur tokens i part g with
    | some (.ok (i', el)) =>
      match parse_rule recur tokens i' rest g with
      | some (.ok (i'', parts)) => some (.ok (i'', el :: parts))
      | some .parseError => some .parseError
      | some .keyError => some .keyError
      | none => none
    | some .parseError => some .parseError
    | some .keyError => some .keyError
    | none => none

/-- The `for rule in syntax[identifier]` loop of `parse`: try the
alternatives in declaration order from the same start position `i`,
returning the first success as a node; a `ParseError` moves to the next
alternative, exhaustion raises `ValueError` (line 62). -/
def parse_alts (recur : Recur) (tokens : List String) (i : Nat) (identifier : String) :
    List (List String) → Grammar → Option (PResult (Nat × Tree))
  | [], _g => some .parseError
  | r :: rs, g =>
    match parse_rule recur tokens i r g with
    | some (.ok (j, parts)) => some (.ok (j, .node identifier parts))
    | some .parseError => parse_alts recur tokens i identifier rs g
    | some .keyError => some .keyError
    | none => none

/-- `parse(tokens, i, identifier, syntax)` with explicit fuel; the fuel only
bounds the recursion depth (the Python original recurses without bound on a
left-recursive grammar). `syntax[identifier]` raises `KeyError` when the
identifier is not a key. -/
def parse : Nat → List String → Nat → String → Grammar → Option (PResult (Nat × Tree))
  | 0, _, _, _, _ => none
  | fuel' + 1, tokens, i, identifier, g =>
    match List.lookup identifier g with
    | some alts =>
      parse_alts (fun j id2 => parse fuel' tokens j id2 g) tokens i identifier alts g
    | none => some .keyError

/-- The identity tokenizer: one character of the input string is one token. -/
def chars (s : String) : List String := s.data.map Char.toString

/-- `parse_expression(expression)`: parse from position 0 with root rule
"expression" and return only the tree (`[1]`), discarding the end position.
The fuel `6 * n + 6` is shown sufficient for every accepted input
(`parse_complete` below). -/
def parse_expression (tokens : List String) : Option Tree :=
  match parse (6 * tokens.length + 6) tokens 0 "expression" bnf_table with
  | some (.ok (_, t)) => some t
  | _ => none

-- Sanity checks that the embedding computes (removed leaves/eval for now).
example : parse_expression (chars "1") =
    some (.node "expression" [.node "term" [.node "factor"
      [.node "constant" [.node "digit" [.leaf "1"]]]]]) := rfl

example : parse 30 (chars "1+2)") 0 "expression" bnf_table =
    some (.ok (3, .node "expression"
      [ .node "term" [.node "factor" [.node "constant" [.node "digit" [.leaf "1"]]]],
        .node "sumop" [.leaf "+"],
        .node "expression" [.node "term" [.node "factor" [.node "constant" [.node "digit" [.leaf "2"]]]]] ])) := rfl

mutual

/-- The terminal leaves of a tree, read left to right. -/
def leaves : Tree → List String
  | .leaf tok => [tok]
  | .node _ parts => leavesList parts

/-- The leaves of a list of parts, read left to right. -/
def leavesList : List Tree → List String
  | [] => []
  | t :: ts => leaves t ++ leavesList ts

end

/-! ## Evaluator -/

/-- The four binary functions from `operator` that `evaluate` can return:
`operator.add`, `operator.sub`, `operator.mul`, `operator.truediv`. -/
inductive Op where
  | add : Op
  | sub : Op
  | mul : Op
  | div : Op
deriving DecidableEq

/-- A Python value produced by `evaluate`: a number, or one of the operator
functions (the `sumop`/`prodop` branches return functions). -/
inductive Val where
  | num : ℚ → Val
  | op : Op → Val
deriving DecidableEq

/-- The evaluation failures: `NameError` on an absent variable (the spec's
`UnboundVariableError`), `TypeError`/`ValueError` on a tree shape outside the
recognized ones (the spec's `MalformedTreeError`), and `ZeroDivisionError`. -/
inductive Err where
  | unbound : Err
  | malformed : Err
  | divByZero : Err
deriving DecidableEq

/-- The variable environment, per spec section 4.3 an explicit parameter
(the Python reference reads the ambient globals x, y, z). -/
abbrev Env := String → Option ℚ

/-- Apply one of the `operator` functions to two numbers.  Division is
`operator.truediv`: true, non-truncating division. -/
def applyOp (f : Op) (a b : ℚ) : Except Err Val :=
  match f with
  | .add => .ok (.num (a + b))
  | .sub => .ok (.num (a - b))
  | .mul => .ok (.num (a * b))
  | .div => if b = 0 then .error .divByZero else .ok (.num (a / b))

/-- `binop(u, v)`: calling the value `f` on two argument values.  Calling a
number, or passing an operator function as an operand, is a `TypeError`. -/
def applyVal (f u v : Val) : Except Err Val :=
  match f, u, v with
  | .op f, .num a, .num b => applyOp f a b
  | _, _, _ => .error .malformed

/-- `int(s)` on a decimal digit string: positional base-10 accumulation of
the character values ('0' is code point 48). -/
def strToNat (s : String) : Nat :=
  s.data.foldl (fun acc c => 10 * acc + (c.toNat - 48)) 0

/-- `numjoin(a, b) = int(str(a) + str(b))`: decimal digit concatenation,
e.g. `numjoin 12 34 = 1234`. -/
def numjoin (a b : Nat) : Nat :=
  strToNat (Nat.repr a ++ Nat.repr b)

/-- The natural number a rational denotes, when it does denote one.  Python's
`int(str(a) + str(b))` in the constant branch raises `ValueError` unless both
operands print as digit sequences, i.e. are non-negative integers. -/
def ratNat? (q : ℚ) : Option Nat :=
  if q.den = 1 ∧ 0 ≤ q.num then some q.num.toNat else none

/-- `evaluate(tree)` with the ambient variable bindings made an explicit
environment, following the `if`/`elif` chain of the source line for line.
A bare token at the root (Python would fail unpacking `identifier, parts`)
and every shape the chain rejects map to `.error .malformed`. -/
def evaluate (tree : Tree) (env : Env) : Except Err Val :=
  match tree with
  | .leaf _ => .error .malformed
  | .node identifier parts =>
    if identifier = "expression" then
      match parts with
      | [p0] => evaluate p0 env
      | [p0, p1, p2] => do
        let binop ← evaluate p1 env
        let v0 ← evaluate p0 env
        let v2 ← evaluate p2 env
        applyVal binop v0 v2
      | _ => .error .malformed
    else if identifier = "sumop" then
      match parts with
      | [.leaf "+"] => .ok (.op .add)
      | [.leaf "-"] => .ok (.op .sub)
      | _ => .error .malformed
    else if identifier = "term" then
      -- same pattern here as for "expression"
      match parts with
      | [p0] => evaluate p0 env
      | [p0, p1, p2] => do
        let binop ← evaluate p1 env
        let v0 ← evaluate p0 env
        let v2 ← evaluate p2 env
        applyVal binop v0 v2
      | _ => .error .malformed
    else if identifier = "prodop" then
      match parts with
      | [.leaf "*"] => .ok (.op .mul)
      | [.leaf "/"] => .ok (.op .div)
      | _ => .error .malformed
    else if identifier = "factor" then
      match parts with
      | [p0] =>
        -- Python tests parts[0][0] == "constant" / "variable": on a pair
        -- that reads the identifier, on a bare token its first character
        -- (never equal to a multi-character rule name).
        match p0 with
        | .node cid _ =>
          if cid = "constant" then evaluate p0 env
          else if cid = "variable" then evaluate p0 env
          else .error .malformed
        | .leaf _ => .error .malformed
      | [_, p1, _] =>
        match p1 with
        | .node cid _ =>
          if cid = "expression" then evaluate p1 env else .error .malformed
        | .leaf _ => .error .malformed
      | _ => .error .malformed
    else if identifier = "variable" then
      match parts with
      | [.leaf v] =>
        if v = "x" then
          match env "x" with
          | some q => .ok (.num q)
          | none => .error .unbound
        else if v = "y" then
          match env "y" with
          | some q => .ok (.num q)
          | none => .error .unbound
        else if v = "z" then
          match env "z" with
          | some q => .ok (.num q)
          | none => .error .unbound
        else .error .malformed
      | _ => .error .malformed
    else if identifier = "constant" then
      match parts with
      | [p0] => evaluate p0 env
      | [p0, p1] => do
        let v0 ← evaluate p0 env
        let v1 ← evaluate p1 env
        match v0, v1 with
        | .num a, .num b =>
          match ratNat? a, ratNat? b with
          | some m, some n => .ok (.num (numjoin m n))
          | _, _ => .error .malformed
        | _, _ => .error .malformed
      | _ => .error .malformed
    else if identifier = "digit" then
      match parts with
      | [.leaf d] =>
        -- Python: `int(parts[0])`, a ValueError unless the token is a
        -- (non-empty) digit string.
        if 0 < d.length ∧ d.data.all Char.isDigit then .ok (.num (strToNat d))
        else .error .malformed
      | _ => .error .malformed
    else .error .malformed

/-- The environment of the reference driver's first evaluation:
x = 1, y = 2, z = 3. -/
def env123 : Env :=
  fun name =>
    if name = "x" then some 1
    else if name = "y" then some 2
    else if name = "z" then some 3
    else none

/-! One-step evaluation laws, one per recognized node shape.  Each is the
corresponding branch of `evaluate`'s dispatch chain. -/

theorem evaluate_expression1 (p : Tree) (env : Env) :
    evaluate (.node "expression" [p]) env = evaluate p env := by
  simp [evaluate]

theorem evaluate_expression3 (p0 p1 p2 : Tree) (env : Env) :
    evaluate (.node "expression" [p0, p1, p2]) env = (do
      let binop ← evaluate p1 env
      let v0 ← evaluate p0 env
      let v2 ← evaluate p2 env
      applyVal binop v0 v2) := by
  simp [evaluate]

theorem evaluate_term1 (p : Tree) (env : Env) :
    evaluate (.node "term" [p]) env = evaluate p env := by
  simp [evaluate]

theorem evaluate_term3 (p0 p1 p2 : Tree) (env : Env) :
    evaluate (.node "term" [p0, p1, p2]) env = (do
      let binop ← evaluate p1 env
      let v0 ← evaluate p0 env
      let v2 ← evaluate p2 env
      applyVal binop v0 v2) := by
  simp [evaluate]

theorem evaluate_sumop_add (env : Env) :
    evaluate (.node "sumop" [.leaf "+"]) env = .ok (.op .add) := by
  simp [evaluate]

theorem evaluate_sumop_sub (env : Env) :
    evaluate (.node "sumop" [.leaf "-"]) env = .ok (.op .sub) := by
  simp [evaluate]

theorem evaluate_prodop_mul (env : Env) :
    evaluate (.node "prodop" [.leaf "*"]) env = .ok (.op .mul) := by
  simp [evaluate]

theorem evaluate_prodop_div (env : Env) :
    evaluate (.node "prodop" [.leaf "/"]) env = .ok (.op .div) := by
  simp [evaluate]

theorem evaluate_factor_constant (cs : List Tree) (env : Env) :
    evaluate (.node "factor" [.node "constant" cs]) env =
      evaluate (.node "constant" cs) env := by
  simp [evaluate]

theorem evaluate_factor_variable (cs : List Tree) (env : Env) :
    evaluate (.node "factor" [.node "variable" cs]) env =
      evaluate (.node "variable" cs) env := by
  simp [evaluate]

theorem evaluate_factor_paren (p0 p2 : Tree) (cs : List Tree) (env : Env) :
    evaluate (.node "factor" [p0, .node "expression" cs, p2]) env =
      evaluate (.node "expression" cs) env := by
  simp [evaluate]

theorem evaluate_variable_x (env : Env) :
    evaluate (.node "variable" [.leaf "x"]) env =
      (match env "x" with
       | some q => .ok (.num q)
       | none => .error .unbound) := by
  simp [evaluate]

theorem evaluate_variable_y (env : Env) :
    evaluate (.node "variable" [.leaf "y"]) env =
      (match env "y" with
       | some q => .ok (.num q)
       | none => .error .unbound) := by
  simp [evaluate]

theorem evaluate_variable_z (env : Env) :
    evaluate (.node "variable" [.leaf "z"]) env =
      (match env "z" with
       | some q => .ok (.num q)
       | none => .error .unbound) := by
  simp [evaluate]

theorem evaluate_constant1 (p : Tree) (env : Env) :
    evaluate (.node "constant" [p]) env = evaluate p env := by
  simp [evaluate]

theorem evaluate_constant2 (p0 p1 : Tree) (env : Env) :
    evaluate (.node "constant" [p0, p1]) env = (do
      let v0 ← evaluate p0 env
      let v1 ← evaluate p1 env
      match v0, v1 with
      | .num a, .num b =>
        match ratNat? a, ratNat? b with
        | some m, some n => .ok (.num (numjoin m n))
        | _, _ => .error .malformed
      | _, _ => .error .malformed) := by
  simp [evaluate]

theorem evaluate_digit (d : String) (env : Env) :
    evaluate (.node "digit" [.leaf d]) env =
      (if 0 < d.length ∧ d.data.all Char.isDigit then .ok (.num (strToNat d))
       else .error .malformed) := by
  simp [evaluate]

/-! Abbreviations for common small trees, used to write concrete parse
results compactly. -/

/-- A digit node over one token. -/
def tD (d : String) : Tree := .node "digit" [.leaf d]

/-- A single-digit constant node. -/
def tC (d : String) : Tree := .node "constant" [tD d]

/-- A variable node over one token. -/
def tV (v : String) : Tree := .node "variable" [.leaf v]

/-- A one-child factor node. -/
def tF (t : Tree) : Tree := .node "factor" [t]

/-- A one-child term node. -/
def tT (t : Tree) : Tree := .node "term" [t]

/-- A one-child expression node. -/
def tE (t : Tree) : Tree := .node "expression" [t]

/-- The tree the parser produces for the reference driver's expression
`"10+2*x+3*(y+z)/2"`. -/
def driverTree : Tree :=
  .node "expression"
    [ tT (tF (.node "constant" [tD "1", tC "0"])),
      .node "sumop" [.leaf "+"],
      .node "expression"
        [ .node "term" [tF (tC "2"), .node "prodop" [.leaf "*"], tT (tF (tV "x"))],
          .node "sumop" [.leaf "+"],
          tE (.node "term"
            [ tF (tC "3"),
              .node "prodop" [.leaf "*"],
              .node "term"
                [ .node "factor"
                    [ .leaf "(",
                      .node "expression" [tT (tF (tV "y")), .node "sumop" [.leaf "+"], tE (tT (tF (tV "z")))],
                      .leaf ")" ],
                  .node "prodop" [.leaf "/"],
                  tT (tF (tC "2")) ]]) ]]

-- Sanity: the driver's expression parses to `driverTree` and evaluates to
-- 19.5 under x=1, y=2, z=3.
example : parse_expression (chars "10+2*x+3*(y+z)/2") = some driverTree := rfl

/-- Evaluating a three-child `"expression"` or `"term"` node whose children
evaluate to an operator and two numbers applies the operator (the
left-to-right, operator-first order of the source). -/
theorem evaluate_binop3 (lbl : String) (hlbl : lbl = "expression" ∨ lbl = "term")
    (p0 p1 p2 : Tree) (env : Env) (f : Op) (a b : ℚ) (r : Except Err Val)
    (h1 : evaluate p1 env = .ok (.op f))
    (h0 : evaluate p0 env = .ok (.num a))
    (h2 : evaluate p2 env = .ok (.num b))
    (hr : applyOp f a b = r) :
    evaluate (.node lbl [p0, p1, p2]) env = r := by
  rcases hlbl with h | h <;> subst h
  · rw [evaluate_expression3, h1, h0, h2]
    exact hr
  · rw [evaluate_term3, h1, h0, h2]
    exact hr

/-- The driver tree evaluates to 19.5 under x=1, y=2, z=3. -/
theorem driverTree_eval : evaluate driverTree env123 = .ok (.num (39 / 2)) := by
  have hyz : evaluate (.node "expression"
      [tT (tF (tV "y")), .node "sumop" [.leaf "+"], tE (tT (tF (tV "z")))]) env123 =
      .ok (.num 5) :=
    evaluate_binop3 _ (Or.inl rfl) _ _ _ _ _ _ _ _ rfl rfl rfl (by norm_num [applyOp, show strToNat "2" = 2 from rfl, show strToNat "3" = 3 from rfl])
  have hpar : evaluate (.node "factor"
      [ .leaf "(",
        .node "expression" [tT (tF (tV "y")), .node "sumop" [.leaf "+"], tE (tT (tF (tV "z")))],
        .leaf ")" ]) env123 = .ok (.num 5) := by
    rw [evaluate_factor_paren]
    exact hyz
  have hdiv : evaluate (.node "term"
      [ .node "factor"
          [ .leaf "(",
            .node "expression" [tT (tF (tV "y")), .node "sumop" [.leaf "+"], tE (tT (tF (tV "z")))],
            .leaf ")" ],
        .node "prodop" [.leaf "/"],
        tT (tF (tC "2")) ]) env123 = .ok (.num (5 / 2)) :=
    evaluate_binop3 _ (Or.inr rfl) _ _ _ _ _ _ _ _ rfl hpar rfl (by norm_num [applyOp, show strToNat "2" = 2 from rfl, show strToNat "3" = 3 from rfl])
  have h3 : evaluate (.node "term"
      [ tF (tC "3"),
        .node "prodop" [.leaf "*"],
        .node "term"
          [ .node "factor"
              [ .leaf "(",
                .node "expression" [tT (tF (tV "y")), .node "sumop" [.leaf "+"], tE (tT (tF (tV "z")))],
                .leaf ")" ],
            .node "prodop" [.leaf "/"],
            tT (tF (tC "2")) ]]) env123 = .ok (.num (15 / 2)) :=
    evaluate_binop3 _ (Or.inr rfl) _ _ _ _ _ _ _ _ rfl rfl hdiv (by norm_num [applyOp, show strToNat "2" = 2 from rfl, show strToNat "3" = 3 from rfl])
  have h2x : evaluate (.node "term"
      [tF (tC "2"), .node "prodop" [.leaf "*"], tT (tF (tV "x"))]) env123 =
      .ok (.num 2) :=
    evaluate_binop3 _ (Or.inr rfl) _ _ _ _ _ _ _ _ rfl rfl rfl (by norm_num [applyOp, show strToNat "2" = 2 from rfl, show strToNat "3" = 3 from rfl])
  have hwrap : evaluate (tE (.node "term"
      [ tF (tC "3"),
        .node "prodop" [.leaf "*"],
        .node "term"
          [ .node "factor"
              [ .leaf "(",
                .node "expression" [tT (tF (tV "y")), .node "sumop" [.leaf "+"], tE (tT (tF (tV "z")))],
                .leaf ")" ],
            .node "prodop" [.leaf "/"],
            tT (tF (tC "2")) ]])) env123 = .ok (.num (15 / 2)) := by
    rw [tE, evaluate_expression1]
    exact h3
  have hsum : evaluate (.node "expression"
      [ .node "term" [tF (tC "2"), .node "prodop" [.leaf "*"], tT (tF (tV "x"))],
        .node "sumop" [.leaf "+"],
        tE (.node "term"
          [ tF (tC "3"),
            .node "prodop" [.leaf "*"],
            .node "term"
              [ .node "factor"
                  [ .leaf "(",
                    .node "expression" [tT (tF (tV "y")), .node "sumop" [.leaf "+"], tE (tT (tF (tV "z")))],
                    .leaf ")" ],
                .node "prodop" [.leaf "/"],
                tT (tF (tC "2")) ]]) ]) env123 = .ok (.num (19 / 2)) :=
    evaluate_binop3 _ (Or.inl rfl) _ _ _ _ _ _ _ _ rfl h2x hwrap (by norm_num [applyOp, show strToNat "2" = 2 from rfl, show strToNat "3" = 3 from rfl])
  exact evaluate_binop3 _ (Or.inl rfl) _ _ _ _ _ _ _ _ rfl rfl hsum
    (by norm_num [applyOp, show numjoin (strToNat "1") (strToNat "0") = 10 from rfl])

/-! ## Parser soundness: extent and leaves

A successful parse moves the cursor forward and the leaves of the produced
tree are exactly the tokens consumed between the start and end positions. -/

/-- Glueing two adjacent token slices. -/
theorem slice_glue (tokens : List String) {i i' i'' : Nat} (h1 : i ≤ i') (h2 : i' ≤ i'') :
    (tokens.drop i).take (i' - i) ++ (tokens.drop i').take (i'' - i') =
      (tokens.drop i).take (i'' - i) := by
  have h3 : i'' - i = (i' - i) + (i'' - i') := by omega
  rw [h3, List.take_add, List.drop_drop]
  have h4 : i + (i' - i) = i' := by omega
  rw [h4]

/-- The soundness property of a recursive parse call. -/
def RecurSound (recur : Recur) (tokens : List String) : Prop :=
  ∀ j id j' t, recur j id = some (.ok (j', t)) →
    j ≤ j' ∧ leaves t = (tokens.drop j).take (j' - j)

theorem parse_part_leaves {recur : Recur} {tokens : List String} {g : Grammar}
    (hrec : RecurSound recur tokens) :
    ∀ j part j' el, parse_part recur tokens j part g = some (.ok (j', el)) →
      j ≤ j' ∧ leaves el = (tokens.drop j).take (j' - j) := by
  intro j part j' el h
  unfold parse_part at h
  split at h
  · exact hrec j part j' el h
  · cases htok : tokens[j]? with
    | none => simp [htok] at h
    | some tok =>
      simp only [htok] at h
      split at h
      · simp only [Option.some.injEq, PResult.ok.injEq, Prod.mk.injEq] at h
        obtain ⟨rfl, rfl⟩ := h
        refine ⟨by omega, ?_⟩
        obtain ⟨hlt, htokj⟩ := List.getElem?_eq_some.mp htok
        have hdrop : tokens.drop j = tokens[j] :: tokens.drop (j + 1) :=
          List.drop_eq_getElem_cons hlt
        rw [hdrop, htokj]
        simp [leaves]
      · simp at h

theorem parse_rule_leaves {recur : Recur} {tokens : List String} {g : Grammar}
    (hrec : RecurSound recur tokens) :
    ∀ rule i i' parts, parse_rule recur tokens i rule g = some (.ok (i', parts)) →
      i ≤ i' ∧ leavesList parts = (tokens.drop i).take (i' - i) := by
  intro rule
  induction rule with
  | nil =>
    intro i i' parts h
    obtain ⟨h1, h2⟩ : i = i' ∧ ([] : List Tree) = parts := by
      simpa [parse_rule] using h
    subst h1; subst h2
    simp [leavesList]
  | cons part rest ih =>
    intro i i' parts h
    unfold parse_rule at h
    cases hp : parse_part recur tokens i part g with
    | none => simp [hp] at h
    | some res =>
      cases res with
      | parseError => simp [hp] at h
      | keyError => simp [hp] at h
      | ok v =>
        obtain ⟨i1, el⟩ := v
        simp only [hp] at h
        cases hr : parse_rule recur tokens i1 rest g with
        | none => simp [hr] at h
        | some res2 =>
          cases res2 with
          | parseError => simp [hr] at h
          | keyError => simp [hr] at h
          | ok v2 =>
            obtain ⟨i2, parts2⟩ := v2
            simp only [hr, Option.some.injEq, PResult.ok.injEq, Prod.mk.injEq] at h
            obtain ⟨rfl, rfl⟩ := h
            obtain ⟨hle1, hl1⟩ := parse_part_leaves hrec i part i1 el hp
            obtain ⟨hle2, hl2⟩ := ih i1 i2 parts2 hr
            refine ⟨by omega, ?_⟩
            calc leavesList (el :: parts2) = leaves el ++ leavesList parts2 := by
                  simp [leavesList]
              _ = (tokens.drop i).take (i1 - i) ++ (tokens.drop i1).take (i2 - i1) := by
                  rw [hl1, hl2]
              _ = (tokens.drop i).take (i2 - i) := slice_glue tokens hle1 hle2

theorem parse_alts_leaves {recur : Recur} {tokens : List String} {g : Grammar}
    (hrec : RecurSound recur tokens) :
    ∀ alts i identifier j t,
      parse_alts recur tokens i identifier alts g = some (.ok (j, t)) →
      i ≤ j ∧ leaves t = (tokens.drop i).take (j - i) := by
  intro alts
  induction alts with
  | nil => intro i identifier j t h; simp [parse_alts] at h
  | cons r rs ih =>
    intro i identifier j t h
    unfold parse_alts at h
    cases hr : parse_rule recur tokens i r g with
    | none => simp [hr] at h
    | some res =>
      cases res with
      | keyError => simp [hr] at h
      | parseError =>
        simp only [hr] at h
        exact ih i identifier j t h
      | ok v =>
        obtain ⟨j1, parts⟩ := v
        simp only [hr, Option.some.injEq, PResult.ok.injEq, Prod.mk.injEq] at h
        obtain ⟨rfl, rfl⟩ := h
        obtain ⟨hle, hl⟩ := parse_rule_leaves hrec r i j1 parts hr
        exact ⟨hle, by simpa [leaves] using hl⟩

/-- Soundness of `parse`: a successful parse at position `i` ending at `j`
produces a tree whose leaves are exactly `tokens[i:j]`. -/
theorem parse_leaves (fuel : Nat) (tokens : List String) (g : Grammar) :
    ∀ i identifier j t, parse fuel tokens i identifier g = some (.ok (j, t)) →
      i ≤ j ∧ leaves t = (tokens.drop i).take (j - i) := by
  induction fuel with
  | zero => intro i identifier j t h; simp [parse] at h
  | succ fuel ih =>
    intro i identifier j t h
    unfold parse at h
    cases hl : List.lookup identifier g with
    | none => simp [hl] at h
    | some alts =>
      simp only [hl] at h
      exact parse_alts_leaves (fun j2 id2 j3 t2 => ih j2 id2 j3 t2) alts i identifier j t h

/-- Every tree `parse` produces is a node labeled with the identifier. -/
theorem parse_node_shape (fuel : Nat) (tokens : List String) (g : Grammar)
    (i : Nat) (identifier : String) (j : Nat) (t : Tree)
    (h : parse fuel tokens i identifier g = some (.ok (j, t))) :
    ∃ parts, t = .node identifier parts := by
  cases fuel with
  | zero => simp [parse] at h
  | succ fuel =>
    unfold parse at h
    cases hl : List.lookup identifier g with
    | none => simp [hl] at h
    | some alts =>
      simp only [hl] at h
      clear hl
      induction alts with
      | nil => simp [parse_alts] at h
      | cons r rs ih =>
        unfold parse_alts at h
        cases hr : parse_rule (fun j2 id2 => parse fuel tokens j2 id2 g) tokens i r g with
        | none => simp [hr] at h
        | some res =>
          cases res with
          | keyError => simp [hr] at h
          | parseError =>
            simp only [hr] at h
            exact ih h
          | ok v =>
            obtain ⟨j1, parts⟩ := v
            simp only [hr, Option.some.injEq, PResult.ok.injEq, Prod.mk.injEq] at h
            obtain ⟨rfl, rfl⟩ := h
            exact ⟨parts, rfl⟩

/-! ## Primitive stepping laws of the parser -/

theorem parse_succ (f : Nat) (tokens : List String) (i : Nat) (rid : String)
    (g : Grammar) (alts : List (List String)) (h : List.lookup rid g = some alts) :
    parse (f + 1) tokens i rid g =
      parse_alts (fun j id2 => parse f tokens j id2 g) tokens i rid alts g := by
  show (match List.lookup rid g with
    | some alts => parse_alts (fun j id2 => parse f tokens j id2 g) tokens i rid alts g
    | none => some .keyError) = _
  rw [h]

theorem parse_keyError (f : Nat) (tokens : List String) (i : Nat) (rid : String)
    (g : Grammar) (h : List.lookup rid g = none) :
    parse (f + 1) tokens i rid g = some .keyError := by
  show (match List.lookup rid g with
    | some alts => parse_alts (fun j id2 => parse f tokens j id2 g) tokens i rid alts g
    | none => some .keyError) = _
  rw [h]

theorem parse_part_key (recur : Recur) (tokens : List String) (j : Nat) (part : String)
    (g : Grammar) (h : (List.lookup part g).isSome = true) :
    parse_part recur tokens j part g = recur j part := by
  unfold parse_part
  rw [if_pos h]

theorem parse_part_term_ok (recur : Recur) (tokens : List String) (j : Nat) (part : String)
    (g : Grammar) (h1 : List.lookup part g = none) (h2 : tokens[j]? = some part) :
    parse_part recur tokens j part g = some (.ok (j + 1, .leaf part)) := by
  unfold parse_part
  rw [if_neg (by simp [h1]), h2]
  simp

theorem parse_part_term_fail (recur : Recur) (tokens : List String) (j : Nat) (part : String)
    (g : Grammar) (h1 : List.lookup part g = none)
    (h2 : ∀ u, tokens[j]? = some u → part ≠ u) :
    parse_part recur tokens j part g = some .parseError := by
  unfold parse_part
  rw [if_neg (by simp [h1])]
  cases htok : tokens[j]? with
  | none => rfl
  | some u => simp [h2 u htok]

theorem parse_rule_nil (recur : Recur) (tokens : List String) (i : Nat) (g : Grammar) :
    parse_rule recur tokens i [] g = some (.ok (i, [])) := rfl

theorem parse_rule_cons_ok_ok (recur : Recur) (tokens : List String) (i : Nat)
    (part : String) (rest : List String) (g : Grammar) {i1 : Nat} {el : Tree}
    {i2 : Nat} {parts : List Tree}
    (h1 : parse_part recur tokens i part g = some (.ok (i1, el)))
    (h2 : parse_rule recur tokens i1 rest g = some (.ok (i2, parts))) :
    parse_rule recur tokens i (part :: rest) g = some (.ok (i2, el :: parts)) := by
  unfold parse_rule
  rw [h1]
  simp only [h2]

theorem parse_rule_cons_ok_fail (recur : Recur) (tokens : List String) (i : Nat)
    (part : String) (rest : List String) (g : Grammar) {i1 : Nat} {el : Tree}
    (h1 : parse_part recur tokens i part g = some (.ok (i1, el)))
    (h2 : parse_rule recur tokens i1 rest g = some .parseError) :
    parse_rule recur tokens i (part :: rest) g = some .parseError := by
  unfold parse_rule
  rw [h1]
  simp only [h2]

theorem parse_rule_cons_fail (recur : Recur) (tokens : List String) (i : Nat)
    (part : String) (rest : List String) (g : Grammar)
    (h1 : parse_part recur tokens i part g = some .parseError) :
    parse_rule recur tokens i (part :: rest) g = some .parseError := by
  unfold parse_rule
  rw [h1]

theorem parse_alts_nil (recur : Recur) (tokens : List String) (i : Nat)
    (identifier : String) (g : Grammar) :
    parse_alts recur tokens i identifier [] g = some .parseError := rfl

theorem parse_alts_first_ok (recur : Recur) (tokens : List String) (i : Nat)
    (identifier : String) (r : List String) (rs : List (List String)) (g : Grammar)
    {j : Nat} {parts : List Tree}
    (h : parse_rule recur tokens i r g = some (.ok (j, parts))) :
    parse_alts recur tokens i identifier (r :: rs) g =
      some (.ok (j, .node identifier parts)) := by
  unfold parse_alts
  rw [h]

theorem parse_alts_skip (recur : Recur) (tokens : List String) (i : Nat)
    (identifier : String) (r : List String) (rs : List (List String)) (g : Grammar)
    (h : parse_rule recur tokens i r g = some .parseError) :
    parse_alts recur tokens i identifier (r :: rs) g =
      parse_alts recur tokens i identifier rs g := by
  show (match parse_rule recur tokens i r g with
    | some (PResult.ok (j, parts)) => some (PResult.ok (j, Tree.node identifier parts))
    | some PResult.parseError => parse_alts recur tokens i identifier rs g
    | some PResult.keyError => some PResult.keyError
    | none => none) = _
  rw [h]

/-! ## Token classes and the language of the grammar -/

/-- The digit terminals of the grammar. -/
def digitToks : List String := ["0", "1", "2", "3", "4", "5", "6", "7", "8", "9"]

/-- The additive-operator terminals. -/
def sumToks : List String := ["+", "-"]

/-- The multiplicative-operator terminals. -/
def prodToks : List String := ["*", "/"]

/-- The variable terminals. -/
def varToks : List String := ["x", "y", "z"]

/-- Derivability in the grammar `bnf_table`: `Deriv rid s` holds when the
token list `s` derives in full from rule `rid`.  There is one constructor
per alternative of the grammar (the terminal-only rules are folded into a
membership premise over exactly their alternatives). -/
inductive Deriv : String → List String → Prop where
  | expr_sum : ∀ (s1 : List String) (op : String) (s2 : List String),
      Deriv "term" s1 → Deriv "sumop" [op] → Deriv "expression" s2 →
      Deriv "expression" (s1 ++ op :: s2)
  | expr_term : ∀ (s : List String), Deriv "term" s → Deriv "expression" s
  | sumop_tok : ∀ (t : String), t ∈ sumToks → Deriv "sumop" [t]
  | term_prod : ∀ (s1 : List String) (op : String) (s2 : List String),
      Deriv "factor" s1 → Deriv "prodop" [op] → Deriv "term" s2 →
      Deriv "term" (s1 ++ op :: s2)
  | term_fact : ∀ (s : List String), Deriv "factor" s → Deriv "term" s
  | prodop_tok : ∀ (t : String), t ∈ prodToks → Deriv "prodop" [t]
  | fact_const : ∀ (s : List String), Deriv "constant" s → Deriv "factor" s
  | fact_var : ∀ (s : List String), Deriv "variable" s → Deriv "factor" s
  | fact_paren : ∀ (s : List String), Deriv "expression" s →
      Deriv "factor" ("(" :: s ++ [")"])
  | var_tok : ∀ (t : String), t ∈ varToks → Deriv "variable" [t]
  | const_cons : ∀ (d : String) (s : List String),
      Deriv "digit" [d] → Deriv "constant" s → Deriv "constant" (d :: s)
  | const_single : ∀ (s : List String), Deriv "digit" s → Deriv "constant" s
  | digit_tok : ∀ (t : String), t ∈ digitToks → Deriv "digit" [t]

/-! ## Helper facts about token positions -/

theorem drop_cons_head {tokens : List String} {i : Nat} {t : String} {l : List String}
    (h : tokens.drop i = t :: l) : tokens[i]? = some t := by
  have h0 : (tokens.drop i)[0]? = tokens[i + 0]? := List.getElem?_drop tokens i 0
  rw [h] at h0
  simpa using h0.symm

theorem drop_cons_tail {tokens : List String} {i : Nat} {t : String} {l : List String}
    (h : tokens.drop i = t :: l) : tokens.drop (i + 1) = l := by
  have h0 : (tokens.drop i).drop 1 = tokens.drop (i + 1) := List.drop_drop 1 i tokens
  rw [h] at h0
  simpa using h0.symm

theorem drop_nil_getElem {tokens : List String} {i : Nat}
    (h : tokens.drop i = []) : tokens[i]? = none := by
  have h0 : (tokens.drop i)[0]? = tokens[i + 0]? := List.getElem?_drop tokens i 0
  rw [h] at h0
  simpa using h0.symm

theorem drop_append_shift {tokens : List String} {i : Nat} {s rest : List String}
    (h : tokens.drop i = s ++ rest) : tokens.drop (i + s.length) = rest := by
  have h0 : (tokens.drop i).drop s.length = tokens.drop (i + s.length) :=
    List.drop_drop s.length i tokens
  rw [h] at h0
  rw [← h0, List.drop_left]

/-! ## Definite success and failure of the terminal-only rules -/

theorem term_alts_ok (recur : Recur) (tokens : List String) (i : Nat)
    (identifier : String) (t : String) :
    ∀ cs : List String,
      (∀ c ∈ cs, List.lookup c bnf_table = none) →
      tokens[i]? = some t → t ∈ cs →
      parse_alts recur tokens i identifier (cs.map (fun c => [c])) bnf_table =
        some (.ok (i + 1, .node identifier [.leaf t])) := by
  intro cs
  induction cs with
  | nil => intro _ _ hmem; cases hmem
  | cons c cs ih =>
    intro hkeys ht hmem
    by_cases hc : c = t
    · subst hc
      have hpart : parse_part recur tokens i c bnf_table = some (.ok (i + 1, .leaf c)) :=
        parse_part_term_ok recur tokens i c bnf_table (hkeys c (by simp)) ht
      have hrule : parse_rule recur tokens i [c] bnf_table =
          some (.ok (i + 1, [Tree.leaf c])) :=
        parse_rule_cons_ok_ok recur tokens i c [] bnf_table hpart
          (parse_rule_nil recur tokens (i + 1) bnf_table)
      simpa using parse_alts_first_ok recur tokens i identifier [c]
        (cs.map (fun c => [c])) bnf_table hrule
    · have hpart : parse_part recur tokens i c bnf_table = some .parseError :=
        parse_part_term_fail recur tokens i c bnf_table (hkeys c (by simp))
          (by intro u hu; rw [ht] at hu; cases hu; exact hc)
      have hrule : parse_rule recur tokens i [c] bnf_table = some .parseError :=
        parse_rule_cons_fail recur tokens i c [] bnf_table hpart
      rw [List.map_cons, parse_alts_skip recur tokens i identifier [c] _ bnf_table hrule]
      refine ih (fun c2 hc2 => hkeys c2 (by simp [hc2])) ht ?_
      cases hmem with
      | head => exact absurd rfl hc
      | tail _ h2 => exact h2

theorem term_alts_fail (recur : Recur) (tokens : List String) (i : Nat)
    (identifier : String) :
    ∀ cs : List String,
      (∀ c ∈ cs, List.lookup c bnf_table = none) →
      (∀ t, tokens[i]? = some t → t ∉ cs) →
      parse_alts recur tokens i identifier (cs.map (fun c => [c])) bnf_table =
        some .parseError := by
  intro cs
  induction cs with
  | nil => intro _ _; rfl
  | cons c cs ih =>
    intro hkeys hno
    have hpart : parse_part recur tokens i c bnf_table = some .parseError := by
      refine parse_part_term_fail recur tokens i c bnf_table (hkeys c (by simp)) ?_
      intro u hu hcu
      exact hno u hu (by simp [hcu])
    have hrule : parse_rule recur tokens i [c] bnf_table = some .parseError :=
      parse_rule_cons_fail recur tokens i c [] bnf_table hpart
    rw [List.map_cons, parse_alts_skip recur tokens i identifier [c] _ bnf_table hrule]
    exact ih (fun c2 hc2 => hkeys c2 (by simp [hc2]))
      (fun t ht hmem => hno t ht (by simp [hmem]))

/-- Peel a fixed amount of fuel off a sufficiently large supply. -/
theorem fuel_tail (c fuel : Nat) (h : c ≤ fuel) : ∃ f, fuel = f + c :=
  ⟨fuel - c, by omega⟩

/-! ## Definite outcomes for the four terminal-only rules and "constant" -/

theorem parse_digit_ok (f : Nat) (tokens : List String) (i : Nat) (t : String)
    (ht : tokens[i]? = some t) (hmem : t ∈ digitToks) :
    parse (f + 1) tokens i "digit" bnf_table =
      some (.ok (i + 1, .node "digit" [.leaf t])) := by
  rw [parse_succ f tokens i "digit" bnf_table (digitToks.map (fun c => [c])) rfl]
  exact term_alts_ok _ tokens i "digit" t digitToks (by decide) ht hmem

theorem parse_digit_fail (f : Nat) (tokens : List String) (i : Nat)
    (hno : ∀ t, tokens[i]? = some t → t ∉ digitToks) :
    parse (f + 1) tokens i "digit" bnf_table = some .parseError := by
  rw [parse_succ f tokens i "digit" bnf_table (digitToks.map (fun c => [c])) rfl]
  exact term_alts_fail _ tokens i "digit" digitToks (by decide) hno

theorem parse_sumop_ok (f : Nat) (tokens : List String) (i : Nat) (t : String)
    (ht : tokens[i]? = some t) (hmem : t ∈ sumToks) :
    parse (f + 1) tokens i "sumop" bnf_table =
      some (.ok (i + 1, .node "sumop" [.leaf t])) := by
  rw [parse_succ f tokens i "sumop" bnf_table (sumToks.map (fun c => [c])) rfl]
  exact term_alts_ok _ tokens i "sumop" t sumToks (by decide) ht hmem

theorem parse_sumop_fail (f : Nat) (tokens : List String) (i : Nat)
    (hno : ∀ t, tokens[i]? = some t → t ∉ sumToks) :
    parse (f + 1) tokens i "sumop" bnf_table = some .parseError := by
  rw [parse_succ f tokens i "sumop" bnf_table (sumToks.map (fun c => [c])) rfl]
  exact term_alts_fail _ tokens i "sumop" sumToks (by decide) hno

theorem parse_prodop_ok (f : Nat) (tokens : List String) (i : Nat) (t : String)
    (ht : tokens[i]? = some t) (hmem : t ∈ prodToks) :
    parse (f + 1) tokens i "prodop" bnf_table =
      some (.ok (i + 1, .node "prodop" [.leaf t])) := by
  rw [parse_succ f tokens i "prodop" bnf_table (prodToks.map (fun c => [c])) rfl]
  exact term_alts_ok _ tokens i "prodop" t prodToks (by decide) ht hmem

theorem parse_prodop_fail (f : Nat) (tokens : List String) (i : Nat)
    (hno : ∀ t, tokens[i]? = some t → t ∉ prodToks) :
    parse (f + 1) tokens i "prodop" bnf_table = some .parseError := by
  rw [parse_succ f tokens i "prodop" bnf_table (prodToks.map (fun c => [c])) rfl]
  exact term_alts_fail _ tokens i "prodop" prodToks (by decide) hno

theorem parse_variable_ok (f : Nat) (tokens : List String) (i : Nat) (t : String)
    (ht : tokens[i]? = some t) (hmem : t ∈ varToks) :
    parse (f + 1) tokens i "variable" bnf_table =
      some (.ok (i + 1, .node "variable" [.leaf t])) := by
  rw [parse_succ f tokens i "variable" bnf_table (varToks.map (fun c => [c])) rfl]
  exact term_alts_ok _ tokens i "variable" t varToks (by decide) ht hmem

theorem parse_variable_fail (f : Nat) (tokens : List String) (i : Nat)
    (hno : ∀ t, tokens[i]? = some t → t ∉ varToks) :
    parse (f + 1) tokens i "variable" bnf_table = some .parseError := by
  rw [parse_succ f tokens i "variable" bnf_table (varToks.map (fun c => [c])) rfl]
  exact term_alts_fail _ tokens i "variable" varToks (by decide) hno

theorem parse_constant_fail (f : Nat) (tokens : List String) (i : Nat)
    (hno : ∀ t, tokens[i]? = some t → t ∉ digitToks) :
    parse (f + 2) tokens i "constant" bnf_table = some .parseError := by
  have hd : parse (f + 1) tokens i "digit" bnf_table = some .parseError :=
    parse_digit_fail f tokens i hno
  rw [parse_succ (f + 1) tokens i "constant" bnf_table
    [["digit", "constant"], ["digit"]] rfl]
  have hp : parse_part (fun j id2 => parse (f + 1) tokens j id2 bnf_table)
      tokens i "digit" bnf_table = some .parseError := by
    rw [parse_part_key (fun j id2 => parse (f + 1) tokens j id2 bnf_table)
      tokens i "digit" bnf_table (by decide)]
    exact hd
  have h1 : parse_rule (fun j id2 => parse (f + 1) tokens j id2 bnf_table)
      tokens i ["digit", "constant"] bnf_table = some .parseError :=
    parse_rule_cons_fail _ tokens i "digit" ["constant"] bnf_table hp
  have h2 : parse_rule (fun j id2 => parse (f + 1) tokens j id2 bnf_table)
      tokens i ["digit"] bnf_table = some .parseError :=
    parse_rule_cons_fail _ tokens i "digit" [] bnf_table hp
  rw [parse_alts_skip _ tokens i "constant" _ _ bnf_table h1,
    parse_alts_skip _ tokens i "constant" _ _ bnf_table h2,
    parse_alts_nil]

/-! ## Completeness of the parser on the arithmetic grammar

For every derivable token list, `parse` consumes exactly it, provided the
following token cannot extend the greedy first-alternative match.  The
follow condition `FollowOk` records, per rule, which next tokens are safe
(the ones that actually occur in the grammar: end of input or a closing
parenthesis after an expression, additionally an additive operator after a
term, additionally a multiplicative operator after a factor, and any
non-digit after a constant). -/

/-- The follow condition for the completeness lemma. -/
def FollowOk (rid : String) : List String → Prop
  | [] => True
  | u :: _ =>
    if rid = "expression" then u = ")"
    else if rid = "term" then u = ")" ∨ u ∈ sumToks
    else if rid = "factor" then u = ")" ∨ u ∈ sumToks ∨ u ∈ prodToks
    else if rid = "constant" then u ∉ digitToks
    else True

/-- Extra fuel needed on top of six units per consumed token: the length of
the longest non-consuming descent chain ending in the rule. -/
def rank (rid : String) : Nat :=
  if rid = "expression" then 5
  else if rid = "term" then 4
  else if rid = "factor" then 3
  else if rid = "constant" then 2
  else 1

theorem followOk_term_of_expression {rest : List String}
    (h : FollowOk "expression" rest) : FollowOk "term" rest := by
  cases rest with
  | nil => exact trivial
  | cons u l =>
    rw [FollowOk, if_pos rfl] at h
    rw [FollowOk, if_neg (by decide), if_pos rfl]
    exact Or.inl h

theorem followOk_factor_of_term {rest : List String}
    (h : FollowOk "term" rest) : FollowOk "factor" rest := by
  cases rest with
  | nil => exact trivial
  | cons u l =>
    rw [FollowOk, if_neg (by decide), if_pos rfl] at h
    rw [FollowOk, if_neg (by decide), if_neg (by decide), if_pos rfl]
    rcases h with h | h
    · exact Or.inl h
    · exact Or.inr (Or.inl h)

theorem followOk_constant_of_factor {rest : List String}
    (h : FollowOk "factor" rest) : FollowOk "constant" rest := by
  cases rest with
  | nil => exact trivial
  | cons u l =>
    rw [FollowOk, if_neg (by decide), if_neg (by decide), if_pos rfl] at h
    rw [FollowOk, if_neg (by decide), if_neg (by decide), if_neg (by decide), if_pos rfl]
    rcases h with h | h | h
    · subst h; decide
    · simp only [sumToks, List.mem_cons, List.not_mem_nil, or_false,
        List.mem_singleton] at h
      rcases h with rfl | rfl <;> decide
    · simp only [prodToks, List.mem_cons, List.not_mem_nil, or_false,
        List.mem_singleton] at h
      rcases h with rfl | rfl <;> decide

theorem followOk_any {rid : String}
    (hrid : rid = "sumop" ∨ rid = "prodop" ∨ rid = "digit" ∨ rid = "variable")
    (rest : List String) : FollowOk rid rest := by
  cases rest with
  | nil => exact trivial
  | cons u l =>
    rcases hrid with h | h | h | h <;> subst h <;>
      rw [FollowOk, if_neg (by decide), if_neg (by decide), if_neg (by decide),
        if_neg (by decide)] <;> exact trivial

/-- No token permitted by the expression follow condition starts a sumop. -/
theorem no_sumop_at_follow {tokens rest : List String} {k : Nat}
    (hdrop : tokens.drop k = rest) (hf : FollowOk "expression" rest) :
    ∀ t, tokens[k]? = some t → t ∉ sumToks := by
  intro t ht
  cases rest with
  | nil => rw [drop_nil_getElem hdrop] at ht; cases ht
  | cons u l =>
    rw [drop_cons_head hdrop] at ht
    cases ht
    rw [FollowOk, if_pos rfl] at hf
    subst hf
    decide

/-- No token permitted by the term follow condition starts a prodop. -/
theorem no_prodop_at_follow {tokens rest : List String} {k : Nat}
    (hdrop : tokens.drop k = rest) (hf : FollowOk "term" rest) :
    ∀ t, tokens[k]? = some t → t ∉ prodToks := by
  intro t ht
  cases rest with
  | nil => rw [drop_nil_getElem hdrop] at ht; cases ht
  | cons u l =>
    rw [drop_cons_head hdrop] at ht
    cases ht
    rw [FollowOk, if_neg (by decide), if_pos rfl] at hf
    rcases hf with h | h
    · subst h; decide
    · simp only [sumToks, List.mem_cons, List.not_mem_nil, or_false,
        List.mem_singleton] at h
      rcases h with rfl | rfl <;> decide

/-- No token permitted by the constant follow condition is a digit. -/
theorem no_digit_at_follow {tokens rest : List String} {k : Nat}
    (hdrop : tokens.drop k = rest) (hf : FollowOk "constant" rest) :
    ∀ t, tokens[k]? = some t → t ∉ digitToks := by
  intro t ht
  cases rest with
  | nil => rw [drop_nil_getElem hdrop] at ht; cases ht
  | cons u l =>
    rw [drop_cons_head hdrop] at ht
    cases ht
    rw [FollowOk, if_neg (by decide), if_neg (by decide), if_neg (by decide),
      if_pos rfl] at hf
    exact hf

/-- Resolve a `parse_part` on a grammar key against a computed `parse`. -/
theorem parse_part_key_eq (f : Nat) (tokens : List String) (j : Nat) (part : String)
    (h : (List.lookup part bnf_table).isSome = true) {r : Option (PResult (Nat × Tree))}
    (hr : parse f tokens j part bnf_table = r) :
    parse_part (fun j2 id2 => parse f tokens j2 id2 bnf_table) tokens j part
      bnf_table = r := by
  rw [parse_part_key _ tokens j part bnf_table h]
  exact hr

/-! Inversion lemmas for the terminal-only rules (the rule name is a string
index, so `cases` needs the index generalized). -/

theorem deriv_sumop_inv : ∀ {rid : String} {s : List String}, Deriv rid s →
    rid = "sumop" → ∃ t, s = [t] ∧ t ∈ sumToks := by
  intro rid s h hrid
  cases h <;> try exact absurd hrid (by decide)
  next t hmem => exact ⟨t, rfl, hmem⟩

theorem deriv_prodop_inv : ∀ {rid : String} {s : List String}, Deriv rid s →
    rid = "prodop" → ∃ t, s = [t] ∧ t ∈ prodToks := by
  intro rid s h hrid
  cases h <;> try exact absurd hrid (by decide)
  next t hmem => exact ⟨t, rfl, hmem⟩

theorem deriv_variable_inv : ∀ {rid : String} {s : List String}, Deriv rid s →
    rid = "variable" → ∃ t, s = [t] ∧ t ∈ varToks := by
  intro rid s h hrid
  cases h <;> try exact absurd hrid (by decide)
  next t hmem => exact ⟨t, rfl, hmem⟩

theorem deriv_digit_inv : ∀ {rid : String} {s : List String}, Deriv rid s →
    rid = "digit" → ∃ t, s = [t] ∧ t ∈ digitToks := by
  intro rid s h hrid
  cases h <;> try exact absurd hrid (by decide)
  next t hmem => exact ⟨t, rfl, hmem⟩

/-- Completeness of `parse` on the arithmetic grammar: a derivable token
list is consumed in full (given the follow condition and enough fuel). -/
theorem parse_complete {rid : String} {s : List String} (hder : Deriv rid s) :
    ∀ (tokens : List String) (i : Nat) (rest : List String) (fuel : Nat),
      tokens.drop i = s ++ rest → FollowOk rid rest →
      6 * s.length + rank rid ≤ fuel →
      ∃ t, parse fuel tokens i rid bnf_table = some (.ok (i + s.length, t)) := by
  induction hder with
  | digit_tok t hmem =>
    intro tokens i rest fuel hdrop hf hfuel
    have hr : rank "digit" = 1 := rfl
    rw [hr] at hfuel
    obtain ⟨f, rfl⟩ := fuel_tail 1 fuel (by omega)
    have ht : tokens[i]? = some t := drop_cons_head (by simpa using hdrop)
    refine ⟨.node "digit" [.leaf t], ?_⟩
    have hlen : i + [t].length = i + 1 := by simp
    rw [hlen]
    exact parse_digit_ok f tokens i t ht hmem
  | sumop_tok t hmem =>
    intro tokens i rest fuel hdrop hf hfuel
    have hr : rank "sumop" = 1 := rfl
    rw [hr] at hfuel
    obtain ⟨f, rfl⟩ := fuel_tail 1 fuel (by omega)
    have ht : tokens[i]? = some t := drop_cons_head (by simpa using hdrop)
    refine ⟨.node "sumop" [.leaf t], ?_⟩
    have hlen : i + [t].length = i + 1 := by simp
    rw [hlen]
    exact parse_sumop_ok f tokens i t ht hmem
  | prodop_tok t hmem =>
    intro tokens i rest fuel hdrop hf hfuel
    have hr : rank "prodop" = 1 := rfl
    rw [hr] at hfuel
    obtain ⟨f, rfl⟩ := fuel_tail 1 fuel (by omega)
    have ht : tokens[i]? = some t := drop_cons_head (by simpa using hdrop)
    refine ⟨.node "prodop" [.leaf t], ?_⟩
    have hlen : i + [t].length = i + 1 := by simp
    rw [hlen]
    exact parse_prodop_ok f tokens i t ht hmem
  | var_tok t hmem =>
    intro tokens i rest fuel hdrop hf hfuel
    have hr : rank "variable" = 1 := rfl
    rw [hr] at hfuel
    obtain ⟨f, rfl⟩ := fuel_tail 1 fuel (by omega)
    have ht : tokens[i]? = some t := drop_cons_head (by simpa using hdrop)
    refine ⟨.node "variable" [.leaf t], ?_⟩
    have hlen : i + [t].length = i + 1 := by simp
    rw [hlen]
    exact parse_variable_ok f tokens i t ht hmem
  | const_single s hd ihd =>
    intro tokens i rest fuel hdrop hf hfuel
    obtain ⟨t, rfl, hmem⟩ := deriv_digit_inv hd rfl
    have hr : rank "constant" = 2 := rfl
    rw [hr] at hfuel
    obtain ⟨f, rfl⟩ := fuel_tail 3 fuel (by simp at hfuel; omega)
    have hdrop1 : tokens.drop i = t :: rest := by simpa using hdrop
    have ht : tokens[i]? = some t := drop_cons_head hdrop1
    have hdt : parse (f + 2) tokens i "digit" bnf_table =
        some (.ok (i + 1, .node "digit" [.leaf t])) :=
      parse_digit_ok (f + 1) tokens i t ht hmem
    have hcf : parse (f + 2) tokens (i + 1) "constant" bnf_table =
        some .parseError :=
      parse_constant_fail f tokens (i + 1)
        (no_digit_at_follow (drop_cons_tail hdrop1) hf)
    have hp1 : parse_part (fun j id2 => parse (f + 2) tokens j id2 bnf_table)
        tokens i "digit" bnf_table =
        some (.ok (i + 1, Tree.node "digit" [.leaf t])) :=
      parse_part_key_eq (f + 2) tokens i "digit" (by decide) hdt
    have hp2 : parse_part (fun j id2 => parse (f + 2) tokens j id2 bnf_table)
        tokens (i + 1) "constant" bnf_table = some .parseError :=
      parse_part_key_eq (f + 2) tokens (i + 1) "constant" (by decide) hcf
    have halt1 : parse_rule (fun j id2 => parse (f + 2) tokens j id2 bnf_table)
        tokens i ["digit", "constant"] bnf_table = some .parseError :=
      parse_rule_cons_ok_fail _ tokens i "digit" ["constant"] bnf_table hp1
        (parse_rule_cons_fail _ tokens (i + 1) "constant" [] bnf_table hp2)
    have halt2 : parse_rule (fun j id2 => parse (f + 2) tokens j id2 bnf_table)
        tokens i ["digit"] bnf_table =
        some (.ok (i + 1, [Tree.node "digit" [.leaf t]])) :=
      parse_rule_cons_ok_ok _ tokens i "digit" [] bnf_table hp1
        (parse_rule_nil _ tokens (i + 1) bnf_table)
    have hstep : parse (f + 3) tokens i "constant" bnf_table =
        parse_alts (fun j id2 => parse (f + 2) tokens j id2 bnf_table) tokens i
          "constant" [["digit", "constant"], ["digit"]] bnf_table :=
      parse_succ (f + 2) tokens i "constant" bnf_table _ rfl
    refine ⟨.node "constant" [.node "digit" [.leaf t]], ?_⟩
    have hlen : i + [t].length = i + 1 := by simp
    rw [hlen, hstep, parse_alts_skip _ tokens i "constant" _ _ bnf_table halt1,
      parse_alts_first_ok _ tokens i "constant" _ _ bnf_table halt2]
  | const_cons d s hd hc ihd ihc =>
    intro tokens i rest fuel hdrop hf hfuel
    have hr : rank "constant" = 2 := rfl
    rw [hr, List.length_cons] at hfuel
    obtain ⟨f, rfl⟩ := fuel_tail 2 fuel (by omega)
    have hdrop1 : tokens.drop i = d :: (s ++ rest) := by simpa using hdrop
    obtain ⟨dt, hdt0⟩ := ihd tokens i (s ++ rest) (f + 1) (by simpa using hdrop1)
      (followOk_any (by simp) _)
      (by have hr2 : rank "digit" = 1 := rfl; rw [hr2]; simp; omega)
    have hdt : parse (f + 1) tokens i "digit" bnf_table =
        some (.ok (i + 1, dt)) := by simpa using hdt0
    obtain ⟨ct, hct0⟩ := ihc tokens (i + 1) rest (f + 1)
      (by simpa using drop_cons_tail hdrop1) hf
      (by have hr2 : rank "constant" = 2 := rfl; rw [hr2]; omega)
    have hct : parse (f + 1) tokens (i + 1) "constant" bnf_table =
        some (.ok (i + 1 + s.length, ct)) := hct0
    have hp1 : parse_part (fun j id2 => parse (f + 1) tokens j id2 bnf_table)
        tokens i "digit" bnf_table = some (.ok (i + 1, dt)) :=
      parse_part_key_eq (f + 1) tokens i "digit" (by decide) hdt
    have hp2 : parse_part (fun j id2 => parse (f + 1) tokens j id2 bnf_table)
        tokens (i + 1) "constant" bnf_table = some (.ok (i + 1 + s.length, ct)) :=
      parse_part_key_eq (f + 1) tokens (i + 1) "constant" (by decide) hct
    have halt1 : parse_rule (fun j id2 => parse (f + 1) tokens j id2 bnf_table)
        tokens i ["digit", "constant"] bnf_table =
        some (.ok (i + 1 + s.length, [dt, ct])) :=
      parse_rule_cons_ok_ok _ tokens i "digit" ["constant"] bnf_table hp1
        (parse_rule_cons_ok_ok _ tokens (i + 1) "constant" [] bnf_table hp2
          (parse_rule_nil _ tokens (i + 1 + s.length) bnf_table))
    have hstep : parse (f + 2) tokens i "constant" bnf_table =
        parse_alts (fun j id2 => parse (f + 1) tokens j id2 bnf_table) tokens i
          "constant" [["digit", "constant"], ["digit"]] bnf_table :=
      parse_succ (f + 1) tokens i "constant" bnf_table _ rfl
    refine ⟨.node "constant" [dt, ct], ?_⟩
    have hlen : i + (d :: s).length = i + 1 + s.length := by
      rw [List.length_cons]; omega
    rw [hlen, hstep, parse_alts_first_ok _ tokens i "constant" _ _ bnf_table halt1]
  | fact_const s hc ihc =>
    intro tokens i rest fuel hdrop hf hfuel
    have hr : rank "factor" = 3 := rfl
    rw [hr] at hfuel
    obtain ⟨f, rfl⟩ := fuel_tail 1 fuel (by omega)
    obtain ⟨ct, hct⟩ := ihc tokens i rest f hdrop (followOk_constant_of_factor hf)
      (by have hr2 : rank "constant" = 2 := rfl; rw [hr2]; omega)
    have hp1 : parse_part (fun j id2 => parse f tokens j id2 bnf_table)
        tokens i "constant" bnf_table = some (.ok (i + s.length, ct)) :=
      parse_part_key_eq f tokens i "constant" (by decide) hct
    have halt1 : parse_rule (fun j id2 => parse f tokens j id2 bnf_table)
        tokens i ["constant"] bnf_table = some (.ok (i + s.length, [ct])) :=
      parse_rule_cons_ok_ok _ tokens i "constant" [] bnf_table hp1
        (parse_rule_nil _ tokens (i + s.length) bnf_table)
    have hstep : parse (f + 1) tokens i "factor" bnf_table =
        parse_alts (fun j id2 => parse f tokens j id2 bnf_table) tokens i
          "factor" [["constant"], ["variable"], ["(", "expression", ")"]] bnf_table :=
      parse_succ f tokens i "factor" bnf_table _ rfl
    refine ⟨.node "factor" [ct], ?_⟩
    rw [hstep, parse_alts_first_ok _ tokens i "factor" _ _ bnf_table halt1]
  | fact_var s hv ihv =>
    intro tokens i rest fuel hdrop hf hfuel
    obtain ⟨t, rfl, hmem⟩ := deriv_variable_inv hv rfl
    have hr : rank "factor" = 3 := rfl
    rw [hr] at hfuel
    obtain ⟨f, rfl⟩ := fuel_tail 3 fuel (by simp at hfuel; omega)
    have hdrop1 : tokens.drop i = t :: rest := by simpa using hdrop
    have ht : tokens[i]? = some t := drop_cons_head hdrop1
    have hnd : ∀ u, tokens[i]? = some u → u ∉ digitToks := by
      intro u hu
      rw [ht] at hu
      cases hu
      simp only [varToks, List.mem_cons, List.not_mem_nil, or_false,
        List.mem_singleton] at hmem
      rcases hmem with rfl | rfl | rfl <;> decide
    have hcf : parse (f + 2) tokens i "constant" bnf_table = some .parseError :=
      parse_constant_fail f tokens i hnd
    have hvok : parse (f + 2) tokens i "variable" bnf_table =
        some (.ok (i + 1, .node "variable" [.leaf t])) :=
      parse_variable_ok (f + 1) tokens i t ht hmem
    have hp1 : parse_part (fun j id2 => parse (f + 2) tokens j id2 bnf_table)
        tokens i "constant" bnf_table = some .parseError :=
      parse_part_key_eq (f + 2) tokens i "constant" (by decide) hcf
    have hp2 : parse_part (fun j id2 => parse (f + 2) tokens j id2 bnf_table)
        tokens i "variable" bnf_table =
        some (.ok (i + 1, .node "variable" [.leaf t])) :=
      parse_part_key_eq (f + 2) tokens i "variable" (by decide) hvok
    have halt1 : parse_rule (fun j id2 => parse (f + 2) tokens j id2 bnf_table)
        tokens i ["constant"] bnf_table = some .parseError :=
      parse_rule_cons_fail _ tokens i "constant" [] bnf_table hp1
    have halt2 : parse_rule (fun j id2 => parse (f + 2) tokens j id2 bnf_table)
        tokens i ["variable"] bnf_table =
        some (.ok (i + 1, [Tree.node "variable" [.leaf t]])) :=
      parse_rule_cons_ok_ok _ tokens i "variable" [] bnf_table hp2
        (parse_rule_nil _ tokens (i + 1) bnf_table)
    have hstep : parse (f + 3) tokens i "factor" bnf_table =
        parse_alts (fun j id2 => parse (f + 2) tokens j id2 bnf_table) tokens i
          "factor" [["constant"], ["variable"], ["(", "expression", ")"]]
          bnf_table :=
      parse_succ (f + 2) tokens i "factor" bnf_table _ rfl
    refine ⟨.node "factor" [.node "variable" [.leaf t]], ?_⟩
    have hlen : i + [t].length = i + 1 := by simp
    rw [hlen, hstep, parse_alts_skip _ tokens i "factor" _ _ bnf_table halt1,
      parse_alts_first_ok _ tokens i "factor" _ _ bnf_table halt2]
  | fact_paren s hE ihe =>
    intro tokens i rest fuel hdrop hf hfuel
    have hr : rank "factor" = 3 := rfl
    have hlen0 : ("(" :: s ++ [")"]).length = s.length + 2 := by simp
    rw [hr, hlen0] at hfuel
    obtain ⟨f, rfl⟩ := fuel_tail 3 fuel (by omega)
    have hdrop1 : tokens.drop i = "(" :: (s ++ ")" :: rest) := by
      simpa [List.append_assoc] using hdrop
    have hopen : tokens[i]? = some "(" := drop_cons_head hdrop1
    have hdropS : tokens.drop (i + 1) = s ++ ")" :: rest := drop_cons_tail hdrop1
    have hfE : FollowOk "expression" (")" :: rest) := by
      rw [FollowOk, if_pos rfl]
    obtain ⟨et, het⟩ := ihe tokens (i + 1) (")" :: rest) (f + 2) hdropS hfE
      (by have hr2 : rank "expression" = 5 := rfl; rw [hr2]; omega)
    have hdropC : tokens.drop (i + 1 + s.length) = ")" :: rest :=
      drop_append_shift hdropS
    have hclose : tokens[i + 1 + s.length]? = some ")" := drop_cons_head hdropC
    have hcf : parse (f + 2) tokens i "constant" bnf_table = some .parseError :=
      parse_constant_fail f tokens i
        (by intro u hu; rw [hopen] at hu; cases hu; decide)
    have hvf : parse (f + 2) tokens i "variable" bnf_table = some .parseError :=
      parse_variable_fail (f + 1) tokens i
        (by intro u hu; rw [hopen] at hu; cases hu; decide)
    have hp1 : parse_part (fun j id2 => parse (f + 2) tokens j id2 bnf_table)
        tokens i "constant" bnf_table = some .parseError :=
      parse_part_key_eq (f + 2) tokens i "constant" (by decide) hcf
    have hp2 : parse_part (fun j id2 => parse (f + 2) tokens j id2 bnf_table)
        tokens i "variable" bnf_table = some .parseError :=
      parse_part_key_eq (f + 2) tokens i "variable" (by decide) hvf
    have hpopen : parse_part (fun j id2 => parse (f + 2) tokens j id2 bnf_table)
        tokens i "(" bnf_table = some (.ok (i + 1, .leaf "(")) :=
      parse_part_term_ok _ tokens i "(" bnf_table (by decide) hopen
    have hpexpr : parse_part (fun j id2 => parse (f + 2) tokens j id2 bnf_table)
        tokens (i + 1) "expression" bnf_table =
        some (.ok (i + 1 + s.length, et)) :=
      parse_part_key_eq (f + 2) tokens (i + 1) "expression" (by decide) het
    have hpclose : parse_part (fun j id2 => parse (f + 2) tokens j id2 bnf_table)
        tokens (i + 1 + s.length) ")" bnf_table =
        some (.ok (i + 1 + s.length + 1, .leaf ")")) :=
      parse_part_term_ok _ tokens (i + 1 + s.length) ")" bnf_table (by decide) hclose
    have halt1 : parse_rule (fun j id2 => parse (f + 2) tokens j id2 bnf_table)
        tokens i ["constant"] bnf_table = some .parseError :=
      parse_rule_cons_fail _ tokens i "constant" [] bnf_table hp1
    have halt2 : parse_rule (fun j id2 => parse (f + 2) tokens j id2 bnf_table)
        tokens i ["variable"] bnf_table = some .parseError :=
      parse_rule_cons_fail _ tokens i "variable" [] bnf_table hp2
    have halt3 : parse_rule (fun j id2 => parse (f + 2) tokens j id2 bnf_table)
        tokens i ["(", "expression", ")"] bnf_table =
        some (.ok (i + 1 + s.length + 1, [.leaf "(", et, .leaf ")"])) :=
      parse_rule_cons_ok_ok _ tokens i "(" ["expression", ")"] bnf_table hpopen
        (parse_rule_cons_ok_ok _ tokens (i + 1) "expression" [")"] bnf_table hpexpr
          (parse_rule_cons_ok_ok _ tokens (i + 1 + s.length) ")" [] bnf_table hpclose
            (parse_rule_nil _ tokens (i + 1 + s.length + 1) bnf_table)))
    have hstep : parse (f + 3) tokens i "factor" bnf_table =
        parse_alts (fun j id2 => parse (f + 2) tokens j id2 bnf_table) tokens i
          "factor" [["constant"], ["variable"], ["(", "expression", ")"]]
          bnf_table :=
      parse_succ (f + 2) tokens i "factor" bnf_table _ rfl
    refine ⟨.node "factor" [.leaf "(", et, .leaf ")"], ?_⟩
    have hlen : i + ("(" :: s ++ [")"]).length = i + 1 + s.length + 1 := by
      rw [hlen0]; omega
    rw [hlen, hstep, parse_alts_skip _ tokens i "factor" _ _ bnf_table halt1,
      parse_alts_skip _ tokens i "factor" _ _ bnf_table halt2,
      parse_alts_first_ok _ tokens i "factor" _ _ bnf_table halt3]
  | term_fact s hfa ihf =>
    intro tokens i rest fuel hdrop hf hfuel
    have hr : rank "term" = 4 := rfl
    rw [hr] at hfuel
    obtain ⟨f, rfl⟩ := fuel_tail 2 fuel (by omega)
    obtain ⟨ft, hft⟩ := ihf tokens i rest (f + 1) hdrop (followOk_factor_of_term hf)
      (by have hr2 : rank "factor" = 3 := rfl; rw [hr2]; omega)
    have hpf : parse (f + 1) tokens (i + s.length) "prodop" bnf_table =
        some .parseError :=
      parse_prodop_fail f tokens (i + s.length)
        (no_prodop_at_follow (drop_append_shift hdrop) hf)
    have hp1 : parse_part (fun j id2 => parse (f + 1) tokens j id2 bnf_table)
        tokens i "factor" bnf_table = some (.ok (i + s.length, ft)) :=
      parse_part_key_eq (f + 1) tokens i "factor" (by decide) hft
    have hp2 : parse_part (fun j id2 => parse (f + 1) tokens j id2 bnf_table)
        tokens (i + s.length) "prodop" bnf_table = some .parseError :=
      parse_part_key_eq (f + 1) tokens (i + s.length) "prodop" (by decide) hpf
    have halt1 : parse_rule (fun j id2 => parse (f + 1) tokens j id2 bnf_table)
        tokens i ["factor", "prodop", "term"] bnf_table = some .parseError :=
      parse_rule_cons_ok_fail _ tokens i "factor" ["prodop", "term"] bnf_table hp1
        (parse_rule_cons_fail _ tokens (i + s.length) "prodop" ["term"] bnf_table hp2)
    have halt2 : parse_rule (fun j id2 => parse (f + 1) tokens j id2 bnf_table)
        tokens i ["factor"] bnf_table = some (.ok (i + s.length, [ft])) :=
      parse_rule_cons_ok_ok _ tokens i "factor" [] bnf_table hp1
        (parse_rule_nil _ tokens (i + s.length) bnf_table)
    have hstep : parse (f + 2) tokens i "term" bnf_table =
        parse_alts (fun j id2 => parse (f + 1) tokens j id2 bnf_table) tokens i
          "term" [["factor", "prodop", "term"], ["factor"]] bnf_table :=
      parse_succ (f + 1) tokens i "term" bnf_table _ rfl
    refine ⟨.node "term" [ft], ?_⟩
    rw [hstep, parse_alts_skip _ tokens i "term" _ _ bnf_table halt1,
      parse_alts_first_ok _ tokens i "term" _ _ bnf_table halt2]
  | term_prod s1 op s2 h1 hop h2 ih1 ihop ih2 =>
    intro tokens i rest fuel hdrop hf hfuel
    have hr : rank "term" = 4 := rfl
    have hlen0 : (s1 ++ op :: s2).length = s1.length + s2.length + 1 := by
      simp [List.length_append]
      omega
    rw [hr, hlen0] at hfuel
    obtain ⟨f, rfl⟩ := fuel_tail 1 fuel (by omega)
    have hdrop1 : tokens.drop i = s1 ++ (op :: (s2 ++ rest)) := by
      simpa [List.append_assoc] using hdrop
    have hopmem : op ∈ prodToks := by
      obtain ⟨t, heq, hm⟩ := deriv_prodop_inv hop rfl
      cases heq
      exact hm
    have hfF : FollowOk "factor" (op :: (s2 ++ rest)) := by
      rw [FollowOk, if_neg (by decide), if_neg (by decide), if_pos rfl]
      exact Or.inr (Or.inr hopmem)
    obtain ⟨ft, hft⟩ := ih1 tokens i (op :: (s2 ++ rest)) f hdrop1 hfF
      (by have hr2 : rank "factor" = 3 := rfl; rw [hr2]; omega)
    have hdrop2 : tokens.drop (i + s1.length) = op :: (s2 ++ rest) :=
      drop_append_shift hdrop1
    obtain ⟨opt, hopt0⟩ := ihop tokens (i + s1.length) (s2 ++ rest) f
      (by simpa using hdrop2) (followOk_any (by simp) _)
      (by have hr2 : rank "prodop" = 1 := rfl; rw [hr2]; simp; omega)
    have hopt : parse f tokens (i + s1.length) "prodop" bnf_table =
        some (.ok (i + s1.length + 1, opt)) := by simpa using hopt0
    have hdrop3 : tokens.drop (i + s1.length + 1) = s2 ++ rest := by
      simpa using drop_cons_tail hdrop2
    obtain ⟨tt, htt⟩ := ih2 tokens (i + s1.length + 1) rest f hdrop3 hf
      (by have hr2 : rank "term" = 4 := rfl; rw [hr2]; omega)
    have hp1 : parse_part (fun j id2 => parse f tokens j id2 bnf_table)
        tokens i "factor" bnf_table = some (.ok (i + s1.length, ft)) :=
      parse_part_key_eq f tokens i "factor" (by decide) hft
    have hp2 : parse_part (fun j id2 => parse f tokens j id2 bnf_table)
        tokens (i + s1.length) "prodop" bnf_table =
        some (.ok (i + s1.length + 1, opt)) :=
      parse_part_key_eq f tokens (i + s1.length) "prodop" (by decide) hopt
    have hp3 : parse_part (fun j id2 => parse f tokens j id2 bnf_table)
        tokens (i + s1.length + 1) "term" bnf_table =
        some (.ok (i + s1.length + 1 + s2.length, tt)) :=
      parse_part_key_eq f tokens (i + s1.length + 1) "term" (by decide) htt
    have halt1 : parse_rule (fun j id2 => parse f tokens j id2 bnf_table)
        tokens i ["factor", "prodop", "term"] bnf_table =
        some (.ok (i + s1.length + 1 + s2.length, [ft, opt, tt])) :=
      parse_rule_cons_ok_ok _ tokens i "factor" ["prodop", "term"] bnf_table hp1
        (parse_rule_cons_ok_ok _ tokens (i + s1.length) "prodop" ["term"]
          bnf_table hp2
          (parse_rule_cons_ok_ok _ tokens (i + s1.length + 1) "term" [] bnf_table
            hp3 (parse_rule_nil _ tokens (i + s1.length + 1 + s2.length) bnf_table)))
    have hstep : parse (f + 1) tokens i "term" bnf_table =
        parse_alts (fun j id2 => parse f tokens j id2 bnf_table) tokens i
          "term" [["factor", "prodop", "term"], ["factor"]] bnf_table :=
      parse_succ f tokens i "term" bnf_table _ rfl
    refine ⟨.node "term" [ft, opt, tt], ?_⟩
    have hlen : i + (s1 ++ op :: s2).length = i + s1.length + 1 + s2.length := by
      rw [hlen0]; omega
    rw [hlen, hstep, parse_alts_first_ok _ tokens i "term" _ _ bnf_table halt1]
  | expr_term s ht iht =>
    intro tokens i rest fuel hdrop hf hfuel
    have hr : rank "expression" = 5 := rfl
    rw [hr] at hfuel
    obtain ⟨f, rfl⟩ := fuel_tail 2 fuel (by omega)
    obtain ⟨tt, htt⟩ := iht tokens i rest (f + 1) hdrop (followOk_term_of_expression hf)
      (by have hr2 : rank "term" = 4 := rfl; rw [hr2]; omega)
    have hsf : parse (f + 1) tokens (i + s.length) "sumop" bnf_table =
        some .parseError :=
      parse_sumop_fail f tokens (i + s.length)
        (no_sumop_at_follow (drop_append_shift hdrop) hf)
    have hp1 : parse_part (fun j id2 => parse (f + 1) tokens j id2 bnf_table)
        tokens i "term" bnf_table = some (.ok (i + s.length, tt)) :=
      parse_part_key_eq (f + 1) tokens i "term" (by decide) htt
    have hp2 : parse_part (fun j id2 => parse (f + 1) tokens j id2 bnf_table)
        tokens (i + s.length) "sumop" bnf_table = some .parseError :=
      parse_part_key_eq (f + 1) tokens (i + s.length) "sumop" (by decide) hsf
    have halt1 : parse_rule (fun j id2 => parse (f + 1) tokens j id2 bnf_table)
        tokens i ["term", "sumop", "expression"] bnf_table = some .parseError :=
      parse_rule_cons_ok_fail _ tokens i "term" ["sumop", "expression"] bnf_table hp1
        (parse_rule_cons_fail _ tokens (i + s.length) "sumop" ["expression"]
          bnf_table hp2)
    have halt2 : parse_rule (fun j id2 => parse (f + 1) tokens j id2 bnf_table)
        tokens i ["term"] bnf_table = some (.ok (i + s.length, [tt])) :=
      parse_rule_cons_ok_ok _ tokens i "term" [] bnf_table hp1
        (parse_rule_nil _ tokens (i + s.length) bnf_table)
    have hstep : parse (f + 2) tokens i "expression" bnf_table =
        parse_alts (fun j id2 => parse (f + 1) tokens j id2 bnf_table) tokens i
          "expression" [["term", "sumop", "expression"], ["term"]] bnf_table :=
      parse_succ (f + 1) tokens i "expression" bnf_table _ rfl
    refine ⟨.node "expression" [tt], ?_⟩
    rw [hstep, parse_alts_skip _ tokens i "expression" _ _ bnf_table halt1,
      parse_alts_first_ok _ tokens i "expression" _ _ bnf_table halt2]
  | expr_sum s1 op s2 h1 hop h2 ih1 ihop ih2 =>
    intro tokens i rest fuel hdrop hf hfuel
    have hr : rank "expression" = 5 := rfl
    have hlen0 : (s1 ++ op :: s2).length = s1.length + s2.length + 1 := by
      simp [List.length_append]
      omega
    rw [hr, hlen0] at hfuel
    obtain ⟨f, rfl⟩ := fuel_tail 1 fuel (by omega)
    have hdrop1 : tokens.drop i = s1 ++ (op :: (s2 ++ rest)) := by
      simpa [List.append_assoc] using hdrop
    have hopmem : op ∈ sumToks := by
      obtain ⟨t, heq, hm⟩ := deriv_sumop_inv hop rfl
      cases heq
      exact hm
    have hfT : FollowOk "term" (op :: (s2 ++ rest)) := by
      rw [FollowOk, if_neg (by decide), if_pos rfl]
      exact Or.inr hopmem
    obtain ⟨tt, htt⟩ := ih1 tokens i (op :: (s2 ++ rest)) f hdrop1 hfT
      (by have hr2 : rank "term" = 4 := rfl; rw [hr2]; omega)
    have hdrop2 : tokens.drop (i + s1.length) = op :: (s2 ++ rest) :=
      drop_append_shift hdrop1
    obtain ⟨opt, hopt0⟩ := ihop tokens (i + s1.length) (s2 ++ rest) f
      (by simpa using hdrop2) (followOk_any (by simp) _)
      (by have hr2 : rank "sumop" = 1 := rfl; rw [hr2]; simp; omega)
    have hopt : parse f tokens (i + s1.length) "sumop" bnf_table =
        some (.ok (i + s1.length + 1, opt)) := by simpa using hopt0
    have hdrop3 : tokens.drop (i + s1.length + 1) = s2 ++ rest := by
      simpa using drop_cons_tail hdrop2
    obtain ⟨et, het⟩ := ih2 tokens (i + s1.length + 1) rest f hdrop3 hf
      (by have hr2 : rank "expression" = 5 := rfl; rw [hr2]; omega)
    have hp1 : parse_part (fun j id2 => parse f tokens j id2 bnf_table)
        tokens i "term" bnf_table = some (.ok (i + s1.length, tt)) :=
      parse_part_key_eq f tokens i "term" (by decide) htt
    have hp2 : parse_part (fun j id2 => parse f tokens j id2 bnf_table)
        tokens (i + s1.length) "sumop" bnf_table =
        some (.ok (i + s1.length + 1, opt)) :=
      parse_part_key_eq f tokens (i + s1.length) "sumop" (by decide) hopt
    have hp3 : parse_part (fun j id2 => parse f tokens j id2 bnf_table)
        tokens (i + s1.length + 1) "expression" bnf_table =
        some (.ok (i + s1.length + 1 + s2.length, et)) :=
      parse_part_key_eq f tokens (i + s1.length + 1) "expression" (by decide) het
    have halt1 : parse_rule (fun j id2 => parse f tokens j id2 bnf_table)
        tokens i ["term", "sumop", "expression"] bnf_table =
        some (.ok (i + s1.length + 1 + s2.length, [tt, opt, et])) :=
      parse_rule_cons_ok_ok _ tokens i "term" ["sumop", "expression"] bnf_table hp1
        (parse_rule_cons_ok_ok _ tokens (i + s1.length) "sumop" ["expression"]
          bnf_table hp2
          (parse_rule_cons_ok_ok _ tokens (i + s1.length + 1) "expression" []
            bnf_table hp3
            (parse_rule_nil _ tokens (i + s1.length + 1 + s2.length) bnf_table)))
    have hstep : parse (f + 1) tokens i "expression" bnf_table =
        parse_alts (fun j id2 => parse f tokens j id2 bnf_table) tokens i
          "expression" [["term", "sumop", "expression"], ["term"]] bnf_table :=
      parse_succ f tokens i "expression" bnf_table _ rfl
    refine ⟨.node "expression" [tt, opt, et], ?_⟩
    have hlen : i + (s1 ++ op :: s2).length = i + s1.length + 1 + s2.length := by
      rw [hlen0]; omega
    rw [hlen, hstep, parse_alts_first_ok _ tokens i "expression" _ _ bnf_table halt1]

/-! ## Shape and value soundness of the evaluator on parser output

`parse` only ever produces trees whose node shapes the evaluator
recognizes, so `evaluate` never reaches the `MalformedTreeError` branch
(it may still fail with `UnboundVariableError` or `ZeroDivisionError`). -/

/-- Results the evaluator can produce for a numeric rule. -/
def NumLike (r : Except Err Val) : Prop :=
  (∃ q : ℚ, r = .ok (.num q)) ∨ r = .error .unbound ∨ r = .error .divByZero

/-- The value invariant of a tree parsed as rule `rid`: operator rules
evaluate to operator functions, digit and constant rules to naturals, every
other rule to a number or a non-malformed error. -/
def GoodAs (rid : String) (t : Tree) : Prop :=
  if rid = "sumop" ∨ rid = "prodop" then
    ∀ env : Env, ∃ f : Op, evaluate t env = .ok (.op f)
  else if rid = "digit" ∨ rid = "constant" then
    ∀ env : Env, ∃ n : ℕ, evaluate t env = .ok (.num (n : ℚ))
  else ∀ env : Env, NumLike (evaluate t env)

theorem goodAs_op_iff {rid : String} (h : rid = "sumop" ∨ rid = "prodop") (t : Tree) :
    GoodAs rid t ↔ ∀ env : Env, ∃ f : Op, evaluate t env = .ok (.op f) := by
  rw [GoodAs, if_pos h]

theorem goodAs_nat_iff {rid : String} (hop : ¬(rid = "sumop" ∨ rid = "prodop"))
    (h : rid = "digit" ∨ rid = "constant") (t : Tree) :
    GoodAs rid t ↔ ∀ env : Env, ∃ n : ℕ, evaluate t env = .ok (.num (n : ℚ)) := by
  rw [GoodAs, if_neg hop, if_pos h]

theorem goodAs_num_iff {rid : String} (hop : ¬(rid = "sumop" ∨ rid = "prodop"))
    (hnat : ¬(rid = "digit" ∨ rid = "constant")) (t : Tree) :
    GoodAs rid t ↔ ∀ env : Env, NumLike (evaluate t env) := by
  rw [GoodAs, if_neg hop, if_neg hnat]

theorem applyOp_numLike (f : Op) (a b : ℚ) : NumLike (applyOp f a b) := by
  cases f with
  | add => exact Or.inl ⟨a + b, rfl⟩
  | sub => exact Or.inl ⟨a - b, rfl⟩
  | mul => exact Or.inl ⟨a * b, rfl⟩
  | div =>
    by_cases hb : b = 0
    · exact Or.inr (Or.inr (by simp [applyOp, hb]))
    · exact Or.inl ⟨a / b, by simp [applyOp, hb]⟩

theorem binop3_numLike {e1 e2 e3 : Except Err Val}
    (h2 : ∃ f, e2 = .ok (.op f)) (h1 : NumLike e1) (h3 : NumLike e3) :
    NumLike (do
      let binop ← e2
      let v0 ← e1
      let v2 ← e3
      applyVal binop v0 v2) := by
  obtain ⟨f, rfl⟩ := h2
  rcases h1 with ⟨a, rfl⟩ | rfl | rfl
  · rcases h3 with ⟨b, rfl⟩ | rfl | rfl
    · simpa [applyVal] using applyOp_numLike f a b
    · exact Or.inr (Or.inl rfl)
    · exact Or.inr (Or.inr rfl)
  · exact Or.inr (Or.inl rfl)
  · exact Or.inr (Or.inr rfl)

/-- `ratNat?` recovers a natural number cast into the rationals. -/
theorem ratNat?_natCast (n : ℕ) : ratNat? (n : ℚ) = some n := by
  unfold ratNat?
  rw [if_pos]
  · simp
  · constructor
    · simp
    · simp

/-! Inversion of successful parser steps. -/

theorem parse_alts_ok_inv {recur : Recur} {tokens : List String} {i : Nat}
    {identifier : String} {g : Grammar} :
    ∀ {alts : List (List String)} {j : Nat} {t : Tree},
      parse_alts recur tokens i identifier alts g = some (.ok (j, t)) →
      ∃ r ∈ alts, ∃ parts, t = .node identifier parts ∧
        parse_rule recur tokens i r g = some (.ok (j, parts)) := by
  intro alts
  induction alts with
  | nil => intro j t h; simp [parse_alts] at h
  | cons r rs ih =>
    intro j t h
    unfold parse_alts at h
    cases hr : parse_rule recur tokens i r g with
    | none => simp [hr] at h
    | some res =>
      cases res with
      | keyError => simp [hr] at h
      | parseError =>
        simp only [hr] at h
        obtain ⟨r2, hmem, parts, ht, hrule⟩ := ih h
        exact ⟨r2, by simp [hmem], parts, ht, hrule⟩
      | ok v =>
        obtain ⟨j1, parts⟩ := v
        simp only [hr, Option.some.injEq, PResult.ok.injEq, Prod.mk.injEq] at h
        obtain ⟨rfl, rfl⟩ := h
        exact ⟨r, by simp, parts, rfl, hr⟩

theorem parse_rule_nil_inv {recur : Recur} {tokens : List String} {i : Nat}
    {g : Grammar} {j : Nat} {parts : List Tree}
    (h : parse_rule recur tokens i [] g = some (.ok (j, parts))) :
    j = i ∧ parts = [] := by
  rw [parse_rule_nil] at h
  simp only [Option.some.injEq, PResult.ok.injEq, Prod.mk.injEq] at h
  exact ⟨h.1.symm, h.2.symm⟩

theorem parse_rule_cons_inv {recur : Recur} {tokens : List String} {i : Nat}
    {part : String} {rest : List String} {g : Grammar} {j : Nat} {parts : List Tree}
    (h : parse_rule recur tokens i (part :: rest) g = some (.ok (j, parts))) :
    ∃ i1 el parts2, parse_part recur tokens i part g = some (.ok (i1, el)) ∧
      parse_rule recur tokens i1 rest g = some (.ok (j, parts2)) ∧
      parts = el :: parts2 := by
  unfold parse_rule at h
  cases hp : parse_part recur tokens i part g with
  | none => simp [hp] at h
  | some res =>
    cases res with
    | parseError => simp [hp] at h
    | keyError => simp [hp] at h
    | ok v =>
      obtain ⟨i1, el⟩ := v
      simp only [hp] at h
      cases hr : parse_rule recur tokens i1 rest g with
      | none => simp [hr] at h
      | some res2 =>
        cases res2 with
        | parseError => simp [hr] at h
        | keyError => simp [hr] at h
        | ok v2 =>
          obtain ⟨i2, parts2⟩ := v2
          simp only [hr, Option.some.injEq, PResult.ok.injEq, Prod.mk.injEq] at h
          obtain ⟨rfl, rfl⟩ := h
          exact ⟨i1, el, parts2, rfl, hr, rfl⟩

theorem parse_part_term_inv {recur : Recur} {tokens : List String} {j : Nat}
    {part : String} {g : Grammar} {j' : Nat} {el : Tree}
    (h1 : List.lookup part g = none)
    (h : parse_part recur tokens j part g = some (.ok (j', el))) :
    el = .leaf part := by
  unfold parse_part at h
  rw [if_neg (by simp [h1])] at h
  cases htok : tokens[j]? with
  | none => simp [htok] at h
  | some tok =>
    simp only [htok] at h
    split at h
    · next hpt =>
      simp only [Option.some.injEq, PResult.ok.injEq, Prod.mk.injEq] at h
      rw [← h.2, hpt]
    · simp at h

theorem parse_part_key_inv {recur : Recur} {tokens : List String} {j : Nat}
    {part : String} {g : Grammar} {j' : Nat} {el : Tree}
    (h1 : (List.lookup part g).isSome = true)
    (h : parse_part recur tokens j part g = some (.ok (j', el))) :
    recur j part = some (.ok (j', el)) := by
  rw [parse_part_key recur tokens j part g h1] at h
  exact h

/-- Enumerate the possible results of a grammar lookup in `bnf_table`. -/
theorem bnf_lookup_cases {rid : String} {alts : List (List String)}
    (h : List.lookup rid bnf_table = some alts) :
    (rid = "expression" ∧ alts = [["term", "sumop", "expression"], ["term"]]) ∨
    (rid = "sumop" ∧ alts = [["+"], ["-"]]) ∨
    (rid = "term" ∧ alts = [["factor", "prodop", "term"], ["factor"]]) ∨
    (rid = "prodop" ∧ alts = [["*"], ["/"]]) ∨
    (rid = "factor" ∧ alts = [["constant"], ["variable"], ["(", "expression", ")"]]) ∨
    (rid = "variable" ∧ alts = [["x"], ["y"], ["z"]]) ∨
    (rid = "constant" ∧ alts = [["digit", "constant"], ["digit"]]) ∨
    (rid = "digit" ∧ alts =
      [["0"], ["1"], ["2"], ["3"], ["4"], ["5"], ["6"], ["7"], ["8"], ["9"]]) := by
  by_cases h1 : rid = "expression"
  · subst h1
    rw [show List.lookup "expression" bnf_table =
      some [["term", "sumop", "expression"], ["term"]] from rfl] at h
    cases h
    exact Or.inl ⟨rfl, rfl⟩
  by_cases h2 : rid = "sumop"
  · subst h2
    rw [show List.lookup "sumop" bnf_table = some [["+"], ["-"]] from rfl] at h
    cases h
    exact Or.inr (Or.inl ⟨rfl, rfl⟩)
  by_cases h3 : rid = "term"
  · subst h3
    rw [show List.lookup "term" bnf_table =
      some [["factor", "prodop", "term"], ["factor"]] from rfl] at h
    cases h
    exact Or.inr (Or.inr (Or.inl ⟨rfl, rfl⟩))
  by_cases h4 : rid = "prodop"
  · subst h4
    rw [show List.lookup "prodop" bnf_table = some [["*"], ["/"]] from rfl] at h
    cases h
    exact Or.inr (Or.inr (Or.inr (Or.inl ⟨rfl, rfl⟩)))
  by_cases h5 : rid = "factor"
  · subst h5
    rw [show List.lookup "factor" bnf_table =
      some [["constant"], ["variable"], ["(", "expression", ")"]] from rfl] at h
    cases h
    exact Or.inr (Or.inr (Or.inr (Or.inr (Or.inl ⟨rfl, rfl⟩))))
  by_cases h6 : rid = "variable"
  · subst h6
    rw [show List.lookup "variable" bnf_table = some [["x"], ["y"], ["z"]] from rfl] at h
    cases h
    exact Or.inr (Or.inr (Or.inr (Or.inr (Or.inr (Or.inl ⟨rfl, rfl⟩)))))
  by_cases h7 : rid = "constant"
  · subst h7
    rw [show List.lookup "constant" bnf_table =
      some [["digit", "constant"], ["digit"]] from rfl] at h
    cases h
    exact Or.inr (Or.inr (Or.inr (Or.inr (Or.inr (Or.inr (Or.inl ⟨rfl, rfl⟩))))))
  by_cases h8 : rid = "digit"
  · subst h8
    rw [show List.lookup "digit" bnf_table =
      some [["0"], ["1"], ["2"], ["3"], ["4"], ["5"], ["6"], ["7"], ["8"], ["9"]]
      from rfl] at h
    cases h
    exact Or.inr (Or.inr (Or.inr (Or.inr (Or.inr (Or.inr (Or.inr ⟨rfl, rfl⟩))))))
  exfalso
  have hnone : List.lookup rid bnf_table = none := by
    have e1 : (rid == ("expression" : String)) = false := beq_eq_false_iff_ne.mpr h1
    have e2 : (rid == ("sumop" : String)) = false := beq_eq_false_iff_ne.mpr h2
    have e3 : (rid == ("term" : String)) = false := beq_eq_false_iff_ne.mpr h3
    have e4 : (rid == ("prodop" : String)) = false := beq_eq_false_iff_ne.mpr h4
    have e5 : (rid == ("factor" : String)) = false := beq_eq_false_iff_ne.mpr h5
    have e6 : (rid == ("variable" : String)) = false := beq_eq_false_iff_ne.mpr h6
    have e7 : (rid == ("constant" : String)) = false := beq_eq_false_iff_ne.mpr h7
    have e8 : (rid == ("digit" : String)) = false := beq_eq_false_iff_ne.mpr h8
    simp only [bnf_table, List.lookup, e1, e2, e3, e4, e5, e6, e7, e8]
  rw [hnone] at h
  cases h

/-- Evaluating a two-child constant node over natural sub-values performs
digit concatenation. -/
theorem constant2_value (m n : ℕ) (env : Env) (t1 t2 : Tree)
    (h1 : evaluate t1 env = .ok (.num (m : ℚ)))
    (h2 : evaluate t2 env = .ok (.num (n : ℚ))) :
    evaluate (.node "constant" [t1, t2]) env =
      .ok (.num ((numjoin m n : ℕ) : ℚ)) := by
  rw [evaluate_constant2, h1, h2]
  show (match ratNat? ((m : ℕ) : ℚ), ratNat? ((n : ℕ) : ℚ) with
    | some m2, some n2 => (Except.ok (Val.num ((numjoin m2 n2 : ℕ) : ℚ)) : Except Err Val)
    | _, _ => Except.error Err.malformed) = _
  rw [ratNat?_natCast, ratNat?_natCast]

theorem goodAs_digit_of_tok {d : String} (hd : d ∈ digitToks) :
    GoodAs "digit" (.node "digit" [.leaf d]) := by
  rw [goodAs_nat_iff (by decide) (by decide)]
  intro env
  refine ⟨strToNat d, ?_⟩
  rw [evaluate_digit, if_pos ?_]
  exact (by decide :
    ∀ d2 ∈ digitToks, 0 < d2.length ∧ d2.data.all Char.isDigit) d hd

theorem goodAs_variable_of_tok {v : String} (hv : v ∈ varToks) :
    GoodAs "variable" (.node "variable" [.leaf v]) := by
  rw [goodAs_num_iff (by decide) (by decide)]
  intro env
  simp only [varToks, List.mem_cons, List.not_mem_nil, or_false,
    List.mem_singleton] at hv
  rcases hv with rfl | rfl | rfl
  · rw [evaluate_variable_x]
    cases henv : env "x"
    · exact Or.inr (Or.inl rfl)
    · exact Or.inl ⟨_, rfl⟩
  · rw [evaluate_variable_y]
    cases henv : env "y"
    · exact Or.inr (Or.inl rfl)
    · exact Or.inl ⟨_, rfl⟩
  · rw [evaluate_variable_z]
    cases henv : env "z"
    · exact Or.inr (Or.inl rfl)
    · exact Or.inl ⟨_, rfl⟩

/-- Every tree `parse` produces from `bnf_table` satisfies the evaluation
invariant of its rule. -/
theorem parse_good (fuel : Nat) (tokens : List String) :
    ∀ (i : Nat) (rid : String) (j : Nat) (t : Tree),
      parse fuel tokens i rid bnf_table = some (.ok (j, t)) → GoodAs rid t := by
  induction fuel with
  | zero => intro i rid j t h; simp [parse] at h
  | succ fuel ih =>
    intro i rid j t h
    cases hl : List.lookup rid bnf_table with
    | none =>
      rw [parse_keyError fuel tokens i rid bnf_table hl] at h
      simp at h
    | some alts =>
      rw [parse_succ fuel tokens i rid bnf_table alts hl] at h
      obtain ⟨r, hmem, parts, rfl, hrule⟩ := parse_alts_ok_inv h
      obtain hc | hc | hc | hc | hc | hc | hc | hc := bnf_lookup_cases hl
      · -- expression
        obtain ⟨rfl, rfl⟩ := hc
        simp only [List.mem_cons, List.not_mem_nil, or_false,
          List.mem_singleton] at hmem
        rcases hmem with rfl | rfl
        · obtain ⟨i1, t1, p2, hp1, hrest, rfl⟩ := parse_rule_cons_inv hrule
          obtain ⟨i2, t2, p3, hp2, hrest2, rfl⟩ := parse_rule_cons_inv hrest
          obtain ⟨i3, t3, p4, hp3, hrest3, rfl⟩ := parse_rule_cons_inv hrest2
          obtain ⟨-, rfl⟩ := parse_rule_nil_inv hrest3
          have hg1 := ih i "term" i1 t1 (parse_part_key_inv (by decide) hp1)
          have hg2 := ih i1 "sumop" i2 t2 (parse_part_key_inv (by decide) hp2)
          have hg3 := ih i2 "expression" i3 t3 (parse_part_key_inv (by decide) hp3)
          rw [goodAs_num_iff (by decide) (by decide)]
          intro env
          rw [evaluate_expression3]
          exact binop3_numLike ((goodAs_op_iff (by decide) t2).mp hg2 env)
            ((goodAs_num_iff (by decide) (by decide) t1).mp hg1 env)
            ((goodAs_num_iff (by decide) (by decide) t3).mp hg3 env)
        · obtain ⟨i1, t1, p2, hp1, hrest, rfl⟩ := parse_rule_cons_inv hrule
          obtain ⟨-, rfl⟩ := parse_rule_nil_inv hrest
          have hg1 := ih i "term" i1 t1 (parse_part_key_inv (by decide) hp1)
          rw [goodAs_num_iff (by decide) (by decide)]
          intro env
          rw [evaluate_expression1]
          exact (goodAs_num_iff (by decide) (by decide) t1).mp hg1 env
      · -- sumop
        obtain ⟨rfl, rfl⟩ := hc
        simp only [List.mem_cons, List.not_mem_nil, or_false,
          List.mem_singleton] at hmem
        rcases hmem with rfl | rfl
        · obtain ⟨i1, el, p2, hp1, hrest, rfl⟩ := parse_rule_cons_inv hrule
          obtain ⟨-, rfl⟩ := parse_rule_nil_inv hrest
          rw [parse_part_term_inv (by decide) hp1]
          rw [goodAs_op_iff (by decide)]
          intro env
          exact ⟨.add, evaluate_sumop_add env⟩
        · obtain ⟨i1, el, p2, hp1, hrest, rfl⟩ := parse_rule_cons_inv hrule
          obtain ⟨-, rfl⟩ := parse_rule_nil_inv hrest
          rw [parse_part_term_inv (by decide) hp1]
          rw [goodAs_op_iff (by decide)]
          intro env
          exact ⟨.sub, evaluate_sumop_sub env⟩
      · -- term
        obtain ⟨rfl, rfl⟩ := hc
        simp only [List.mem_cons, List.not_mem_nil, or_false,
          List.mem_singleton] at hmem
        rcases hmem with rfl | rfl
        · obtain ⟨i1, t1, p2, hp1, hrest, rfl⟩ := parse_rule_cons_inv hrule
          obtain ⟨i2, t2, p3, hp2, hrest2, rfl⟩ := parse_rule_cons_inv hrest
          obtain ⟨i3, t3, p4, hp3, hrest3, rfl⟩ := parse_rule_cons_inv hrest2
          obtain ⟨-, rfl⟩ := parse_rule_nil_inv hrest3
          have hg1 := ih i "factor" i1 t1 (parse_part_key_inv (by decide) hp1)
          have hg2 := ih i1 "prodop" i2 t2 (parse_part_key_inv (by decide) hp2)
          have hg3 := ih i2 "term" i3 t3 (parse_part_key_inv (by decide) hp3)
          rw [goodAs_num_iff (by decide) (by decide)]
          intro env
          rw [evaluate_term3]
          exact binop3_numLike ((goodAs_op_iff (by decide) t2).mp hg2 env)
            ((goodAs_num_iff (by decide) (by decide) t1).mp hg1 env)
            ((goodAs_num_iff (by decide) (by decide) t3).mp hg3 env)
        · obtain ⟨i1, t1, p2, hp1, hrest, rfl⟩ := parse_rule_cons_inv hrule
          obtain ⟨-, rfl⟩ := parse_rule_nil_inv hrest
          have hg1 := ih i "factor" i1 t1 (parse_part_key_inv (by decide) hp1)
          rw [goodAs_num_iff (by decide) (by decide)]
          intro env
          rw [evaluate_term1]
          exact (goodAs_num_iff (by decide) (by decide) t1).mp hg1 env
      · -- prodop
        obtain ⟨rfl, rfl⟩ := hc
        simp only [List.mem_cons, List.not_mem_nil, or_false,
          List.mem_singleton] at hmem
        rcases hmem with rfl | rfl
        · obtain ⟨i1, el, p2, hp1, hrest, rfl⟩ := parse_rule_cons_inv hrule
          obtain ⟨-, rfl⟩ := parse_rule_nil_inv hrest
          rw [parse_part_term_inv (by decide) hp1]
          rw [goodAs_op_iff (by decide)]
          intro env
          exact ⟨.mul, evaluate_prodop_mul env⟩
        · obtain ⟨i1, el, p2, hp1, hrest, rfl⟩ := parse_rule_cons_inv hrule
          obtain ⟨-, rfl⟩ := parse_rule_nil_inv hrest
          rw [parse_part_term_inv (by decide) hp1]
          rw [goodAs_op_iff (by decide)]
          intro env
          exact ⟨.div, evaluate_prodop_div env⟩
      · -- factor
        obtain ⟨rfl, rfl⟩ := hc
        simp only [List.mem_cons, List.not_mem_nil, or_false,
          List.mem_singleton] at hmem
        rcases hmem with rfl | rfl | rfl
        · obtain ⟨i1, t1, p2, hp1, hrest, rfl⟩ := parse_rule_cons_inv hrule
          obtain ⟨-, rfl⟩ := parse_rule_nil_inv hrest
          have hrec := parse_part_key_inv (by decide) hp1
          obtain ⟨cs, rfl⟩ := parse_node_shape fuel tokens bnf_table i "constant" i1 t1 hrec
          have hg1 := ih i "constant" i1 _ hrec
          rw [goodAs_num_iff (by decide) (by decide)]
          intro env
          rw [evaluate_factor_constant]
          obtain ⟨n, hn⟩ := (goodAs_nat_iff (by decide) (by decide) _).mp hg1 env
          exact Or.inl ⟨n, hn⟩
        · obtain ⟨i1, t1, p2, hp1, hrest, rfl⟩ := parse_rule_cons_inv hrule
          obtain ⟨-, rfl⟩ := parse_rule_nil_inv hrest
          have hrec := parse_part_key_inv (by decide) hp1
          obtain ⟨cs, rfl⟩ := parse_node_shape fuel tokens bnf_table i "variable" i1 t1 hrec
          have hg1 := ih i "variable" i1 _ hrec
          rw [goodAs_num_iff (by decide) (by decide)]
          intro env
          rw [evaluate_factor_variable]
          exact (goodAs_num_iff (by decide) (by decide) _).mp hg1 env
        · obtain ⟨i1, el1, p2, hp1, hrest, rfl⟩ := parse_rule_cons_inv hrule
          obtain ⟨i2, t2, p3, hp2, hrest2, rfl⟩ := parse_rule_cons_inv hrest
          obtain ⟨i3, el3, p4, hp3, hrest3, rfl⟩ := parse_rule_cons_inv hrest2
          obtain ⟨-, rfl⟩ := parse_rule_nil_inv hrest3
          have hrec := parse_part_key_inv (by decide) hp2
          obtain ⟨cs, rfl⟩ := parse_node_shape fuel tokens bnf_table i1 "expression" i2 t2 hrec
          have hg2 := ih i1 "expression" i2 _ hrec
          rw [goodAs_num_iff (by decide) (by decide)]
          intro env
          rw [evaluate_factor_paren]
          exact (goodAs_num_iff (by decide) (by decide) _).mp hg2 env
      · -- variable
        obtain ⟨rfl, rfl⟩ := hc
        simp only [List.mem_cons, List.not_mem_nil, or_false,
          List.mem_singleton] at hmem
        rcases hmem with rfl | rfl | rfl <;>
        · obtain ⟨i1, el, p2, hp1, hrest, rfl⟩ := parse_rule_cons_inv hrule
          obtain ⟨-, rfl⟩ := parse_rule_nil_inv hrest
          rw [parse_part_term_inv (by decide) hp1]
          exact goodAs_variable_of_tok (by decide)
      · -- constant
        obtain ⟨rfl, rfl⟩ := hc
        simp only [List.mem_cons, List.not_mem_nil, or_false,
          List.mem_singleton] at hmem
        rcases hmem with rfl | rfl
        · obtain ⟨i1, t1, p2, hp1, hrest, rfl⟩ := parse_rule_cons_inv hrule
          obtain ⟨i2, t2, p3, hp2, hrest2, rfl⟩ := parse_rule_cons_inv hrest
          obtain ⟨-, rfl⟩ := parse_rule_nil_inv hrest2
          have hg1 := ih i "digit" i1 t1 (parse_part_key_inv (by decide) hp1)
          have hg2 := ih i1 "constant" i2 t2 (parse_part_key_inv (by decide) hp2)
          rw [goodAs_nat_iff (by decide) (by decide)]
          intro env
          obtain ⟨m, hm⟩ := (goodAs_nat_iff (by decide) (by decide) t1).mp hg1 env
          obtain ⟨n, hn⟩ := (goodAs_nat_iff (by decide) (by decide) t2).mp hg2 env
          exact ⟨numjoin m n, constant2_value m n env t1 t2 hm hn⟩
        · obtain ⟨i1, t1, p2, hp1, hrest, rfl⟩ := parse_rule_cons_inv hrule
          obtain ⟨-, rfl⟩ := parse_rule_nil_inv hrest
          have hg1 := ih i "digit" i1 t1 (parse_part_key_inv (by decide) hp1)
          rw [goodAs_nat_iff (by decide) (by decide)]
          intro env
          rw [evaluate_constant1]
          exact (goodAs_nat_iff (by decide) (by decide) t1).mp hg1 env
      · -- digit
        obtain ⟨rfl, rfl⟩ := hc
        have hmem2 : r ∈ digitToks.map (fun c => [c]) := hmem
        obtain ⟨d, hdmem, rfl⟩ := List.mem_map.mp hmem2
        obtain ⟨i1, el, p2, hp1, hrest, rfl⟩ := parse_rule_cons_inv hrule
        obtain ⟨-, rfl⟩ := parse_rule_nil_inv hrest
        rw [parse_part_term_inv
          ((by decide : ∀ c ∈ digitToks, List.lookup c bnf_table = none) d hdmem) hp1]
        exact goodAs_digit_of_tok hdmem

/-! ## A single digit parses as a term when nothing can extend it -/

theorem sum_not_digit_prod {u : String} (hu : u ∈ sumToks) :
    u ∉ digitToks ∧ u ∉ prodToks := by
  simp only [sumToks, List.mem_cons, List.not_mem_nil, or_false,
    List.mem_singleton] at hu
  rcases hu with rfl | rfl <;> exact ⟨by decide, by decide⟩

theorem prod_not_digit {u : String} (hu : u ∈ prodToks) : u ∉ digitToks := by
  simp only [prodToks, List.mem_cons, List.not_mem_nil, or_false,
    List.mem_singleton] at hu
  rcases hu with rfl | rfl <;> decide

/-- A digit token parses as the factor `tF (tC d)` consuming exactly one
token, provided the next token cannot extend the constant. -/
theorem digit_factor_tree (f : Nat) (tokens : List String) (i : Nat) (d : String)
    (hd : tokens[i]? = some d) (hdig : d ∈ digitToks)
    (hnext : ∀ u, tokens[i + 1]? = some u → u ∉ digitToks) :
    parse (f + 4) tokens i "factor" bnf_table = some (.ok (i + 1, tF (tC d))) := by
  have hdok : parse (f + 2) tokens i "digit" bnf_table =
      some (.ok (i + 1, .node "digit" [.leaf d])) :=
    parse_digit_ok (f + 1) tokens i d hd hdig
  have hcf : parse (f + 2) tokens (i + 1) "constant" bnf_table = some .parseError :=
    parse_constant_fail f tokens (i + 1) hnext
  have hp1 : parse_part (fun j id2 => parse (f + 2) tokens j id2 bnf_table)
      tokens i "digit" bnf_table = some (.ok (i + 1, .node "digit" [.leaf d])) :=
    parse_part_key_eq (f + 2) tokens i "digit" (by decide) hdok
  have hp2 : parse_part (fun j id2 => parse (f + 2) tokens j id2 bnf_table)
      tokens (i + 1) "constant" bnf_table = some .parseError :=
    parse_part_key_eq (f + 2) tokens (i + 1) "constant" (by decide) hcf
  have hconst : parse (f + 3) tokens i "constant" bnf_table =
      some (.ok (i + 1, tC d)) := by
    have hstep : parse (f + 3) tokens i "constant" bnf_table =
        parse_alts (fun j id2 => parse (f + 2) tokens j id2 bnf_table) tokens i
          "constant" [["digit", "constant"], ["digit"]] bnf_table :=
      parse_succ (f + 2) tokens i "constant" bnf_table _ rfl
    rw [hstep,
      parse_alts_skip _ tokens i "constant" _ _ bnf_table
        (parse_rule_cons_ok_fail _ tokens i "digit" ["constant"] bnf_table hp1
          (parse_rule_cons_fail _ tokens (i + 1) "constant" [] bnf_table hp2)),
      parse_alts_first_ok _ tokens i "constant" _ _ bnf_table
        (parse_rule_cons_ok_ok _ tokens i "digit" [] bnf_table hp1
          (parse_rule_nil _ tokens (i + 1) bnf_table))]
    rfl
  have hstep : parse (f + 4) tokens i "factor" bnf_table =
      parse_alts (fun j id2 => parse (f + 3) tokens j id2 bnf_table) tokens i
        "factor" [["constant"], ["variable"], ["(", "expression", ")"]]
        bnf_table :=
    parse_succ (f + 3) tokens i "factor" bnf_table _ rfl
  have hpc : parse_part (fun j id2 => parse (f + 3) tokens j id2 bnf_table)
      tokens i "constant" bnf_table = some (.ok (i + 1, tC d)) :=
    parse_part_key_eq (f + 3) tokens i "constant" (by decide) hconst
  rw [hstep,
    parse_alts_first_ok _ tokens i "factor" _ _ bnf_table
      (parse_rule_cons_ok_ok _ tokens i "constant" [] bnf_table hpc
        (parse_rule_nil _ tokens (i + 1) bnf_table))]
  rfl

/-- A digit token parses as the term `tT (tF (tC d))` consuming exactly one
token, provided the next token can extend neither the constant nor the
term. -/
theorem digit_term_tree (f : Nat) (tokens : List String) (i : Nat) (d : String)
    (hd : tokens[i]? = some d) (hdig : d ∈ digitToks)
    (hnext : ∀ u, tokens[i + 1]? = some u → u ∉ digitToks ∧ u ∉ prodToks) :
    parse (f + 5) tokens i "term" bnf_table = some (.ok (i + 1, tT (tF (tC d)))) := by
  have hfact : parse (f + 4) tokens i "factor" bnf_table =
      some (.ok (i + 1, tF (tC d))) :=
    digit_factor_tree f tokens i d hd hdig (fun u hu => (hnext u hu).1)
  have hpfail : parse (f + 4) tokens (i + 1) "prodop" bnf_table =
      some .parseError :=
    parse_prodop_fail (f + 3) tokens (i + 1) (fun u hu => (hnext u hu).2)
  have hpf : parse_part (fun j id2 => parse (f + 4) tokens j id2 bnf_table)
      tokens i "factor" bnf_table = some (.ok (i + 1, tF (tC d))) :=
    parse_part_key_eq (f + 4) tokens i "factor" (by decide) hfact
  have hpp : parse_part (fun j id2 => parse (f + 4) tokens j id2 bnf_table)
      tokens (i + 1) "prodop" bnf_table = some .parseError :=
    parse_part_key_eq (f + 4) tokens (i + 1) "prodop" (by decide) hpfail
  have hstep : parse (f + 5) tokens i "term" bnf_table =
      parse_alts (fun j id2 => parse (f + 4) tokens j id2 bnf_table) tokens i
        "term" [["factor", "prodop", "term"], ["factor"]] bnf_table :=
    parse_succ (f + 4) tokens i "term" bnf_table _ rfl
  rw [hstep,
    parse_alts_skip _ tokens i "term" _ _ bnf_table
      (parse_rule_cons_ok_fail _ tokens i "factor" ["prodop", "term"] bnf_table hpf
        (parse_rule_cons_fail _ tokens (i + 1) "prodop" ["term"] bnf_table hpp)),
    parse_alts_first_ok _ tokens i "term" _ _ bnf_table
      (parse_rule_cons_ok_ok _ tokens i "factor" [] bnf_table hpf
        (parse_rule_nil _ tokens (i + 1) bnf_table))]
  rfl

/-- A three-element chain of digits joined by additive operators parses
right-nested: the right operand is the nested sub-expression. -/
theorem chain_right_nested (a op1 b op2 c : String)
    (ha : a ∈ digitToks) (hb : b ∈ digitToks) (hc : c ∈ digitToks)
    (h1 : op1 ∈ sumToks) (h2 : op2 ∈ sumToks) :
    parse_expression [a, op1, b, op2, c] =
      some (.node "expression" [tT (tF (tC a)), .node "sumop" [.leaf op1],
        .node "expression" [tT (tF (tC b)), .node "sumop" [.leaf op2],
          tE (tT (tF (tC c)))]]) := by
  have hTermC : parse 33 [a, op1, b, op2, c] 4 "term" bnf_table =
      some (.ok (5, tT (tF (tC c)))) :=
    digit_term_tree 28 [a, op1, b, op2, c] 4 c rfl hc
      (by
        intro u hu
        rw [show ([a, op1, b, op2, c] : List String)[4 + 1]? = none from rfl] at hu
        cases hu)
  have hExprC : parse 34 [a, op1, b, op2, c] 4 "expression" bnf_table =
      some (.ok (5, tE (tT (tF (tC c))))) := by
    have hsf : parse 33 [a, op1, b, op2, c] 5 "sumop" bnf_table =
        some .parseError :=
      parse_sumop_fail 32 [a, op1, b, op2, c] 5
        (by
          intro u hu
          rw [show ([a, op1, b, op2, c] : List String)[5]? = none from rfl] at hu
          cases hu)
    have hpt : parse_part (fun j id2 => parse 33 [a, op1, b, op2, c] j id2 bnf_table)
        [a, op1, b, op2, c] 4 "term" bnf_table = some (.ok (5, tT (tF (tC c)))) :=
      parse_part_key_eq 33 [a, op1, b, op2, c] 4 "term" (by decide) hTermC
    have hps : parse_part (fun j id2 => parse 33 [a, op1, b, op2, c] j id2 bnf_table)
        [a, op1, b, op2, c] 5 "sumop" bnf_table = some .parseError :=
      parse_part_key_eq 33 [a, op1, b, op2, c] 5 "sumop" (by decide) hsf
    have hstep : parse 34 [a, op1, b, op2, c] 4 "expression" bnf_table =
        parse_alts (fun j id2 => parse 33 [a, op1, b, op2, c] j id2 bnf_table)
          [a, op1, b, op2, c] 4 "expression"
          [["term", "sumop", "expression"], ["term"]] bnf_table :=
      parse_succ 33 [a, op1, b, op2, c] 4 "expression" bnf_table _ rfl
    rw [hstep,
      parse_alts_skip _ [a, op1, b, op2, c] 4 "expression" _ _ bnf_table
        (parse_rule_cons_ok_fail _ [a, op1, b, op2, c] 4 "term"
          ["sumop", "expression"] bnf_table hpt
          (parse_rule_cons_fail _ [a, op1, b, op2, c] 5 "sumop" ["expression"]
            bnf_table hps)),
      parse_alts_first_ok _ [a, op1, b, op2, c] 4 "expression" _ _ bnf_table
        (parse_rule_cons_ok_ok _ [a, op1, b, op2, c] 4 "term" [] bnf_table hpt
          (parse_rule_nil _ [a, op1, b, op2, c] 5 bnf_table))]
    rfl
  have hTermB : parse 34 [a, op1, b, op2, c] 2 "term" bnf_table =
      some (.ok (3, tT (tF (tC b)))) :=
    digit_term_tree 29 [a, op1, b, op2, c] 2 b rfl hb
      (by
        intro u hu
        rw [show ([a, op1, b, op2, c] : List String)[2 + 1]? = some op2 from rfl] at hu
        cases hu
        exact sum_not_digit_prod h2)
  have hSum2 : parse 34 [a, op1, b, op2, c] 3 "sumop" bnf_table =
      some (.ok (4, .node "sumop" [.leaf op2])) :=
    parse_sumop_ok 33 [a, op1, b, op2, c] 3 op2 rfl h2
  have hExprBC : parse 35 [a, op1, b, op2, c] 2 "expression" bnf_table =
      some (.ok (5, .node "expression" [tT (tF (tC b)), .node "sumop" [.leaf op2],
        tE (tT (tF (tC c)))])) := by
    have hpb : parse_part (fun j id2 => parse 34 [a, op1, b, op2, c] j id2 bnf_table)
        [a, op1, b, op2, c] 2 "term" bnf_table = some (.ok (3, tT (tF (tC b)))) :=
      parse_part_key_eq 34 [a, op1, b, op2, c] 2 "term" (by decide) hTermB
    have hps : parse_part (fun j id2 => parse 34 [a, op1, b, op2, c] j id2 bnf_table)
        [a, op1, b, op2, c] 3 "sumop" bnf_table =
        some (.ok (4, .node "sumop" [.leaf op2])) :=
      parse_part_key_eq 34 [a, op1, b, op2, c] 3 "sumop" (by decide) hSum2
    have hpe : parse_part (fun j id2 => parse 34 [a, op1, b, op2, c] j id2 bnf_table)
        [a, op1, b, op2, c] 4 "expression" bnf_table =
        some (.ok (5, tE (tT (tF (tC c))))) :=
      parse_part_key_eq 34 [a, op1, b, op2, c] 4 "expression" (by decide) hExprC
    have hstep : parse 35 [a, op1, b, op2, c] 2 "expression" bnf_table =
        parse_alts (fun j id2 => parse 34 [a, op1, b, op2, c] j id2 bnf_table)
          [a, op1, b, op2, c] 2 "expression"
          [["term", "sumop", "expression"], ["term"]] bnf_table :=
      parse_succ 34 [a, op1, b, op2, c] 2 "expression" bnf_table _ rfl
    rw [hstep,
      parse_alts_first_ok _ [a, op1, b, op2, c] 2 "expression" _ _ bnf_table
        (parse_rule_cons_ok_ok _ [a, op1, b, op2, c] 2 "term"
          ["sumop", "expression"] bnf_table hpb
          (parse_rule_cons_ok_ok _ [a, op1, b, op2, c] 3 "sumop" ["expression"]
            bnf_table hps
            (parse_rule_cons_ok_ok _ [a, op1, b, op2, c] 4 "expression" []
              bnf_table hpe
              (parse_rule_nil _ [a, op1, b, op2, c] 5 bnf_table))))]
  have hTermA : parse 35 [a, op1, b, op2, c] 0 "term" bnf_table =
      some (.ok (1, tT (tF (tC a)))) :=
    digit_term_tree 30 [a, op1, b, op2, c] 0 a rfl ha
      (by
        intro u hu
        rw [show ([a, op1, b, op2, c] : List String)[0 + 1]? = some op1 from rfl] at hu
        cases hu
        exact sum_not_digit_prod h1)
  have hSum1 : parse 35 [a, op1, b, op2, c] 1 "sumop" bnf_table =
      some (.ok (2, .node "sumop" [.leaf op1])) :=
    parse_sumop_ok 34 [a, op1, b, op2, c] 1 op1 rfl h1
  have hTop : parse 36 [a, op1, b, op2, c] 0 "expression" bnf_table =
      some (.ok (5, .node "expression" [tT (tF (tC a)), .node "sumop" [.leaf op1],
        .node "expression" [tT (tF (tC b)), .node "sumop" [.leaf op2],
          tE (tT (tF (tC c)))]])) := by
    have hpa : parse_part (fun j id2 => parse 35 [a, op1, b, op2, c] j id2 bnf_table)
        [a, op1, b, op2, c] 0 "term" bnf_table = some (.ok (1, tT (tF (tC a)))) :=
      parse_part_key_eq 35 [a, op1, b, op2, c] 0 "term" (by decide) hTermA
    have hps : parse_part (fun j id2 => parse 35 [a, op1, b, op2, c] j id2 bnf_table)
        [a, op1, b, op2, c] 1 "sumop" bnf_table =
        some (.ok (2, .node "sumop" [.leaf op1])) :=
      parse_part_key_eq 35 [a, op1, b, op2, c] 1 "sumop" (by decide) hSum1
    have hpe : parse_part (fun j id2 => parse 35 [a, op1, b, op2, c] j id2 bnf_table)
        [a, op1, b, op2, c] 2 "expression" bnf_table =
        some (.ok (5, .node "expression" [tT (tF (tC b)), .node "sumop" [.leaf op2],
          tE (tT (tF (tC c)))])) :=
      parse_part_key_eq 35 [a, op1, b, op2, c] 2 "expression" (by decide) hExprBC
    have hstep : parse 36 [a, op1, b, op2, c] 0 "expression" bnf_table =
        parse_alts (fun j id2 => parse 35 [a, op1, b, op2, c] j id2 bnf_table)
          [a, op1, b, op2, c] 0 "expression"
          [["term", "sumop", "expression"], ["term"]] bnf_table :=
      parse_succ 35 [a, op1, b, op2, c] 0 "expression" bnf_table _ rfl
    rw [hstep,
      parse_alts_first_ok _ [a, op1, b, op2, c] 0 "expression" _ _ bnf_table
        (parse_rule_cons_ok_ok _ [a, op1, b, op2, c] 0 "term"
          ["sumop", "expression"] bnf_table hpa
          (parse_rule_cons_ok_ok _ [a, op1, b, op2, c] 1 "sumop" ["expression"]
            bnf_table hps
            (parse_rule_cons_ok_ok _ [a, op1, b, op2, c] 2 "expression" []
              bnf_table hpe
              (parse_rule_nil _ [a, op1, b, op2, c] 5 bnf_table))))]
  unfold parse_expression
  rw [show 6 * ([a, op1, b, op2, c] : List String).length + 6 = 36 from rfl, hTop]

/-- A three-element chain of digits joined by multiplicative operators
parses right-nested: the whole input is a single term whose right operand is
the nested sub-term. -/
theorem chain_right_nested_prod (a op1 b op2 c : String)
    (ha : a ∈ digitToks) (hb : b ∈ digitToks) (hc : c ∈ digitToks)
    (h1 : op1 ∈ prodToks) (h2 : op2 ∈ prodToks) :
    parse_expression [a, op1, b, op2, c] =
      some (tE (.node "term" [tF (tC a), .node "prodop" [.leaf op1],
        .node "term" [tF (tC b), .node "prodop" [.leaf op2],
          tT (tF (tC c))]])) := by
  have hTermC : parse 33 [a, op1, b, op2, c] 4 "term" bnf_table =
      some (.ok (5, tT (tF (tC c)))) :=
    digit_term_tree 28 [a, op1, b, op2, c] 4 c rfl hc
      (by
        intro u hu
        rw [show ([a, op1, b, op2, c] : List String)[4 + 1]? = none from rfl] at hu
        cases hu)
  have hTermBC : parse 34 [a, op1, b, op2, c] 2 "term" bnf_table =
      some (.ok (5, .node "term" [tF (tC b), .node "prodop" [.leaf op2],
        tT (tF (tC c))])) := by
    have hFactB : parse 33 [a, op1, b, op2, c] 2 "factor" bnf_table =
        some (.ok (3, tF (tC b))) :=
      digit_factor_tree 29 [a, op1, b, op2, c] 2 b rfl hb
        (by
          intro u hu
          rw [show ([a, op1, b, op2, c] : List String)[2 + 1]? = some op2 from rfl] at hu
          cases hu
          exact prod_not_digit h2)
    have hProd2 : parse 33 [a, op1, b, op2, c] 3 "prodop" bnf_table =
        some (.ok (4, .node "prodop" [.leaf op2])) :=
      parse_prodop_ok 32 [a, op1, b, op2, c] 3 op2 rfl h2
    have hpf : parse_part (fun j id2 => parse 33 [a, op1, b, op2, c] j id2 bnf_table)
        [a, op1, b, op2, c] 2 "factor" bnf_table = some (.ok (3, tF (tC b))) :=
      parse_part_key_eq 33 [a, op1, b, op2, c] 2 "factor" (by decide) hFactB
    have hpo : parse_part (fun j id2 => parse 33 [a, op1, b, op2, c] j id2 bnf_table)
        [a, op1, b, op2, c] 3 "prodop" bnf_table =
        some (.ok (4, .node "prodop" [.leaf op2])) :=
      parse_part_key_eq 33 [a, op1, b, op2, c] 3 "prodop" (by decide) hProd2
    have hpt : parse_part (fun j id2 => parse 33 [a, op1, b, op2, c] j id2 bnf_table)
        [a, op1, b, op2, c] 4 "term" bnf_table = some (.ok (5, tT (tF (tC c)))) :=
      parse_part_key_eq 33 [a, op1, b, op2, c] 4 "term" (by decide) hTermC
    have hstep : parse 34 [a, op1, b, op2, c] 2 "term" bnf_table =
        parse_alts (fun j id2 => parse 33 [a, op1, b, op2, c] j id2 bnf_table)
          [a, op1, b, op2, c] 2 "term"
          [["factor", "prodop", "term"], ["factor"]] bnf_table :=
      parse_succ 33 [a, op1, b, op2, c] 2 "term" bnf_table _ rfl
    rw [hstep,
      parse_alts_first_ok _ [a, op1, b, op2, c] 2 "term" _ _ bnf_table
        (parse_rule_cons_ok_ok _ [a, op1, b, op2, c] 2 "factor"
          ["prodop", "term"] bnf_table hpf
          (parse_rule_cons_ok_ok _ [a, op1, b, op2, c] 3 "prodop" ["term"]
            bnf_table hpo
            (parse_rule_cons_ok_ok _ [a, op1, b, op2, c] 4 "term" []
              bnf_table hpt
              (parse_rule_nil _ [a, op1, b, op2, c] 5 bnf_table))))]
  have hTermTop : parse 35 [a, op1, b, op2, c] 0 "term" bnf_table =
      some (.ok (5, .node "term" [tF (tC a), .node "prodop" [.leaf op1],
        .node "term" [tF (tC b), .node "prodop" [.leaf op2],
          tT (tF (tC c))]])) := by
    have hFactA : parse 34 [a, op1, b, op2, c] 0 "factor" bnf_table =
        some (.ok (1, tF (tC a))) :=
      digit_factor_tree 30 [a, op1, b, op2, c] 0 a rfl ha
        (by
          intro u hu
          rw [show ([a, op1, b, op2, c] : List String)[0 + 1]? = some op1 from rfl] at hu
          cases hu
          exact prod_not_digit h1)
    have hProd1 : parse 34 [a, op1, b, op2, c] 1 "prodop" bnf_table =
        some (.ok (2, .node "prodop" [.leaf op1])) :=
      parse_prodop_ok 33 [a, op1, b, op2, c] 1 op1 rfl h1
    have hpf : parse_part (fun j id2 => parse 34 [a, op1, b, op2, c] j id2 bnf_table)
        [a, op1, b, op2, c] 0 "factor" bnf_table = some (.ok (1, tF (tC a))) :=
      parse_part_key_eq 34 [a, op1, b, op2, c] 0 "factor" (by decide) hFactA
    have hpo : parse_part (fun j id2 => parse 34 [a, op1, b, op2, c] j id2 bnf_table)
        [a, op1, b, op2, c] 1 "prodop" bnf_table =
        some (.ok (2, .node "prodop" [.leaf op1])) :=
      parse_part_key_eq 34 [a, op1, b, op2, c] 1 "prodop" (by decide) hProd1
    have hpt : parse_part (fun j id2 => parse 34 [a, op1, b, op2, c] j id2 bnf_table)
        [a, op1, b, op2, c] 2 "term" bnf_table =
        some (.ok (5, .node "term" [tF (tC b), .node "prodop" [.leaf op2],
          tT (tF (tC c))])) :=
      parse_part_key_eq 34 [a, op1, b, op2, c] 2 "term" (by decide) hTermBC
    have hstep : parse 35 [a, op1, b, op2, c] 0 "term" bnf_table =
        parse_alts (fun j id2 => parse 34 [a, op1, b, op2, c] j id2 bnf_table)
          [a, op1, b, op2, c] 0 "term"
          [["factor", "prodop", "term"], ["factor"]] bnf_table :=
      parse_succ 34 [a, op1, b, op2, c] 0 "term" bnf_table _ rfl
    rw [hstep,
      parse_alts_first_ok _ [a, op1, b, op2, c] 0 "term" _ _ bnf_table
        (parse_rule_cons_ok_ok _ [a, op1, b, op2, c] 0 "factor"
          ["prodop", "term"] bnf_table hpf
          (parse_rule_cons_ok_ok _ [a, op1, b, op2, c] 1 "prodop" ["term"]
            bnf_table hpo
            (parse_rule_cons_ok_ok _ [a, op1, b, op2, c] 2 "term" []
              bnf_table hpt
              (parse_rule_nil _ [a, op1, b, op2, c] 5 bnf_table))))]
  have hTop : parse 36 [a, op1, b, op2, c] 0 "expression" bnf_table =
      some (.ok (5, tE (.node "term" [tF (tC a), .node "prodop" [.leaf op1],
        .node "term" [tF (tC b), .node "prodop" [.leaf op2],
          tT (tF (tC c))]]))) := by
    have hsf : parse 35 [a, op1, b, op2, c] 5 "sumop" bnf_table =
        some .parseError :=
      parse_sumop_fail 34 [a, op1, b, op2, c] 5
        (by
          intro u hu
          rw [show ([a, op1, b, op2, c] : List String)[5]? = none from rfl] at hu
          cases hu)
    have hpt : parse_part (fun j id2 => parse 35 [a, op1, b, op2, c] j id2 bnf_table)
        [a, op1, b, op2, c] 0 "term" bnf_table =
        some (.ok (5, .node "term" [tF (tC a), .node "prodop" [.leaf op1],
          .node "term" [tF (tC b), .node "prodop" [.leaf op2],
            tT (tF (tC c))]])) :=
      parse_part_key_eq 35 [a, op1, b, op2, c] 0 "term" (by decide) hTermTop
    have hps : parse_part (fun j id2 => parse 35 [a, op1, b, op2, c] j id2 bnf_table)
        [a, op1, b, op2, c] 5 "sumop" bnf_table = some .parseError :=
      parse_part_key_eq 35 [a, op1, b, op2, c] 5 "sumop" (by decide) hsf
    have hstep : parse 36 [a, op1, b, op2, c] 0 "expression" bnf_table =
        parse_alts (fun j id2 => parse 35 [a, op1, b, op2, c] j id2 bnf_table)
          [a, op1, b, op2, c] 0 "expression"
          [["term", "sumop", "expression"], ["term"]] bnf_table :=
      parse_succ 35 [a, op1, b, op2, c] 0 "expression" bnf_table _ rfl
    rw [hstep,
      parse_alts_skip _ [a, op1, b, op2, c] 0 "expression" _ _ bnf_table
        (parse_rule_cons_ok_fail _ [a, op1, b, op2, c] 0 "term"
          ["sumop", "expression"] bnf_table hpt
          (parse_rule_cons_fail _ [a, op1, b, op2, c] 5 "sumop" ["expression"]
            bnf_table hps)),
      parse_alts_first_ok _ [a, op1, b, op2, c] 0 "expression" _ _ bnf_table
        (parse_rule_cons_ok_ok _ [a, op1, b, op2, c] 0 "term" [] bnf_table hpt
          (parse_rule_nil _ [a, op1, b, op2, c] 5 bnf_table))]
    rfl
  unfold parse_expression
  rw [show 6 * ([a, op1, b, op2, c] : List String).length + 6 = 36 from rfl]
  rw [hTop]

/-! ## The claims -/

/-- The tree `parse_expression` returns for the input `"1+2)"`: the tree of
the prefix `"1+2"`. -/
def prefixTree12 : Tree :=
  .node "expression" [tT (tF (tC "1")), .node "sumop" [.leaf "+"], tE (tT (tF (tC "2")))]

/-- C1 counterexample: `parse_expression` does NOT reject `"1+2)"`; it
succeeds, returning the parse tree of the prefix `"1+2"` (whose leaves are
the characters of `"1+2"`), so there is no `IncompleteParseError` or any
equivalent root-level rejection in the code. -/
theorem c1_counterexample :
    parse_expression (chars "1+2)") = some prefixTree12 ∧
      leaves prefixTree12 = chars "1+2" := by
  constructor
  · rfl
  · simp only [prefixTree12, tE, tT, tF, tC, tD, leaves, leavesList, chars]
    decide

/-- C1 (amended): `parse_expression` performs no end-of-input check: on
`"1+2)"` the root `parse` call succeeds with end position 3 while the input
has 4 tokens, and `parse_expression` discards the end position and returns
the tree of the prefix `"1+2"`. -/
theorem c1_amended_no_completion_check :
    parse 30 (chars "1+2)") 0 "expression" bnf_table =
        some (.ok (3, prefixTree12)) ∧
      (chars "1+2)").length = 4 ∧
      parse_expression (chars "1+2)") = some prefixTree12 :=
  ⟨rfl, rfl, rfl⟩

/-- C2: backtracking — for every grammar, token sequence, start position
and rule, when an alternative fails (a raised `ParseError`), the remaining
alternatives are tried from the very same start position `i` that was
passed into `parse`; a failed alternative leaves no position advancement
behind (the failure carries no position at all). -/
theorem c2_backtracking (fuel : Nat) (tokens : List String) (g : Grammar)
    (i : Nat) (identifier : String) (r : List String) (rs : List (List String))
    (halts : List.lookup identifier g = some (r :: rs))
    (hfail : parse_rule (fun j id2 => parse fuel tokens j id2 g) tokens i r g =
      some .parseError) :
    parse (fuel + 1) tokens i identifier g =
      parse_alts (fun j id2 => parse fuel tokens j id2 g) tokens i identifier rs g := by
  rw [parse_succ fuel tokens i identifier g (r :: rs) halts,
    parse_alts_skip _ tokens i identifier r rs g hfail]

/-- The spec's backtracking scenario: alternative 1 consumes two tokens and
then fails; alternative 2 must still see the original start position. -/
def gBack : Grammar := [("S", [["a", "b", "c"], ["a", "b"]])]

/-- Witness for C2 at the spec's concrete scenario: on `["a","b","x"]`,
alternative `["a","b","c"]` consumes `a`, `b` and then fails on `c`;
alternative `["a","b"]` is then tried from position 0 and succeeds there. -/
theorem c2_backtracking_witness :
    parse_rule (fun j id2 => parse 5 ["a", "b", "x"] j id2 gBack)
        ["a", "b", "x"] 0 ["a", "b", "c"] gBack = some .parseError ∧
      parse 6 ["a", "b", "x"] 0 "S" gBack =
        parse_alts (fun j id2 => parse 5 ["a", "b", "x"] j id2 gBack)
          ["a", "b", "x"] 0 "S" [["a", "b"]] gBack ∧
      parse 6 ["a", "b", "x"] 0 "S" gBack =
        some (.ok (2, .node "S" [.leaf "a", .leaf "b"])) :=
  ⟨rfl, c2_backtracking 5 ["a", "b", "x"] gBack 0 "S" ["a", "b", "c"] [["a", "b"]]
    rfl rfl, rfl⟩

/-- C3: first-alternative-wins — for every grammar, whenever the first
alternative of a rule matches, `parse` returns the node built from it,
whatever the later alternatives would do; being a function of its inputs,
parsing is deterministic. -/
theorem c3_first_alternative_wins (fuel : Nat) (tokens : List String) (g : Grammar)
    (i : Nat) (identifier : String) (r : List String) (rs : List (List String))
    (j : Nat) (parts : List Tree)
    (halts : List.lookup identifier g = some (r :: rs))
    (hok : parse_rule (fun j2 id2 => parse fuel tokens j2 id2 g) tokens i r g =
      some (.ok (j, parts))) :
    parse (fuel + 1) tokens i identifier g = some (.ok (j, .node identifier parts)) := by
  rw [parse_succ fuel tokens i identifier g (r :: rs) halts,
    parse_alts_first_ok _ tokens i identifier r rs g hok]

/-- A deliberately ambiguous grammar: both alternatives of `S` can match
the input `["a","b"]`. -/
def gAmb : Grammar := [("S", [["a"], ["a", "b"]])]

/-- Witness for C3: on `["a","b"]` the first alternative `["a"]` wins even
though the second alternative `["a","b"]` also matches (and would match
more). -/
theorem c3_first_alternative_wins_witness :
    parse_rule (fun j2 id2 => parse 5 ["a", "b"] j2 id2 gAmb)
        ["a", "b"] 0 ["a"] gAmb = some (.ok (1, [.leaf "a"])) ∧
      parse 6 ["a", "b"] 0 "S" gAmb = some (.ok (1, .node "S" [.leaf "a"])) ∧
      parse_rule (fun j2 id2 => parse 5 ["a", "b"] j2 id2 gAmb)
        ["a", "b"] 0 ["a", "b"] gAmb = some (.ok (2, [.leaf "a", .leaf "b"])) :=
  ⟨rfl, c3_first_alternative_wins 5 ["a", "b"] gAmb 0 "S" ["a"] [["a", "b"]] 1
    [.leaf "a"] rfl rfl, rfl⟩

/-- C4: round-trip — for every token list in the language of the grammar
(derivable in full from the root rule "expression"), `parse_expression`
succeeds and the leaves of the returned tree, read left to right, are
exactly the input. -/
theorem c4_roundtrip (s : List String) (h : Deriv "expression" s) :
    ∃ t, parse_expression s = some t ∧ leaves t = s := by
  obtain ⟨t, ht⟩ := parse_complete h s 0 [] (6 * s.length + 6) (by simp) trivial
    (by have hr : rank "expression" = 5 := rfl; rw [hr]; omega)
  refine ⟨t, ?_, ?_⟩
  · simp [parse_expression, ht]
  · have hl := (parse_leaves (6 * s.length + 6) s bnf_table 0 "expression"
      (0 + s.length) t ht).2
    simpa using hl

/-- Witness for C4 at the derivable input `["1"]`. -/
theorem c4_roundtrip_witness :
    Deriv "expression" ["1"] ∧
      ∃ t, parse_expression ["1"] = some t ∧ leaves t = ["1"] := by
  have hd : Deriv "expression" ["1"] :=
    .expr_term _ (.term_fact _ (.fact_const _ (.const_single _
      (.digit_tok "1" (by decide)))))
  exact ⟨hd, c4_roundtrip ["1"] hd⟩

/-- C5: the driver expression `"10+2*x+3*(y+z)/2"` parses and evaluates to
exactly 19.5 = 39/2 under x=1, y=2, z=3, with `"/"` denoting true
(non-truncating) division. -/
theorem c5_driver_value :
    (parse_expression (chars "10+2*x+3*(y+z)/2")).map (fun t => evaluate t env123) =
      some (.ok (.num (39 / 2))) := by
  rw [show parse_expression (chars "10+2*x+3*(y+z)/2") = some driverTree from rfl]
  show some (evaluate driverTree env123) = some (.ok (.num (39 / 2)))
  rw [driverTree_eval]

/-- C6: for every two-child "constant" node whose children evaluate to the
naturals m and n, evaluation combines them by decimal digit concatenation
`numjoin` (not addition); in particular `numjoin 1 23 = 123` and not 24. -/
theorem c6_digit_concatenation (t1 t2 : Tree) (env : Env) (m n : ℕ)
    (h1 : evaluate t1 env = .ok (.num (m : ℚ)))
    (h2 : evaluate t2 env = .ok (.num (n : ℚ))) :
    evaluate (.node "constant" [t1, t2]) env =
        .ok (.num ((numjoin m n : ℕ) : ℚ)) ∧
      numjoin 1 23 = 123 ∧ numjoin 1 23 ≠ 24 :=
  ⟨constant2_value m n env t1 t2 h1 h2, rfl, by decide⟩

/-- Witness for C6: the constant node for the digit 1 followed by the
constant 23 evaluates to 123. -/
theorem c6_digit_concatenation_witness :
    evaluate (.node "constant" [tD "1", .node "constant" [tD "2", tC "3"]])
        (fun _ => none) = .ok (.num ((123 : ℕ) : ℚ)) ∧
      numjoin 1 23 = 123 := by
  have h := (c6_digit_concatenation (tD "1") (.node "constant" [tD "2", tC "3"])
    (fun _ => none) 1 23 rfl rfl).1
  rw [show numjoin 1 23 = 123 from rfl] at h
  exact ⟨h, rfl⟩

/-- C7: a "variable" node evaluates to the value the environment binds for
its name, and to `UnboundVariableError` when the name is absent; in
particular evaluating the tree parsed from `"x"` under the empty
environment fails with `UnboundVariableError`. -/
theorem c7_unbound_variable (env : Env) (name : String)
    (h : name = "x" ∨ name = "y" ∨ name = "z") :
    (evaluate (.node "variable" [.leaf name]) env =
        match env name with
        | some v => .ok (.num v)
        | none => .error .unbound) ∧
      (∃ t, parse_expression (chars "x") = some t ∧
        evaluate t (fun _ => none) = .error .unbound) := by
  constructor
  · rcases h with rfl | rfl | rfl
    · rw [evaluate_variable_x]
    · rw [evaluate_variable_y]
    · rw [evaluate_variable_z]
  · exact ⟨tE (tT (tF (tV "x"))), rfl, rfl⟩

/-- The environment binding only x (to 5), for the C7 witness. -/
def envX5 : Env := fun name => if name = "x" then some 5 else none

/-- Witness for C7 at `name = "x"` and a concrete environment. -/
theorem c7_unbound_variable_witness :
    (evaluate (.node "variable" [.leaf "x"]) envX5 =
        match envX5 "x" with
        | some v => Except.ok (Val.num v)
        | none => Except.error Err.unbound) ∧
      (∃ t, parse_expression (chars "x") = some t ∧
        evaluate t (fun _ => none) = .error .unbound) :=
  c7_unbound_variable envX5 "x" (Or.inl rfl)

/-- A grammar whose rule `S` references the dangling non-terminal `T`
(no entry for `T`). -/
def gDangling : Grammar := [("S", [["T"]])]

/-- C8 counterexample: a symbol that is not a key of the grammar is NOT
looked up as a rule and does NOT fail with `UnknownRuleError`: inside an
alternative it is silently treated as a terminal literal and matched
against the current token, so `parse` on `["T"]` succeeds. -/
theorem c8_unknown_rule_counterexample :
    List.lookup "T" gDangling = none ∧
      parse 5 ["T"] 0 "S" gDangling = some (.ok (1, .node "S" [.leaf "T"])) :=
  ⟨rfl, rfl⟩

/-- C8 (amended): only the identifier passed directly to `parse` (such as
the root rule) raises `KeyError` — the `UnknownRuleError` — when absent
from the grammar, and a `KeyError` arising in an alternative propagates
out of the alternatives loop without the next alternative being tried
(fatal, not retried). -/
theorem c8_unknown_rule_amended (fuel : Nat) (tokens : List String) (i : Nat)
    (identifier : String) (g : Grammar) (recur : Recur) (r : List String)
    (rs : List (List String)) :
    (List.lookup identifier g = none →
        parse (fuel + 1) tokens i identifier g = some .keyError) ∧
      (parse_rule recur tokens i r g = some .keyError →
        parse_alts recur tokens i identifier (r :: rs) g = some .keyError) := by
  constructor
  · intro h
    exact parse_keyError fuel tokens i identifier g h
  · intro h
    show (match parse_rule recur tokens i r g with
      | some (PResult.ok (j, parts)) => some (PResult.ok (j, Tree.node identifier parts))
      | some PResult.parseError => parse_alts recur tokens i identifier rs g
      | some PResult.keyError => some PResult.keyError
      | none => none) = _
    rw [h]

/-- A grammar in which rule `S` first tries the sub-rule `S2`. -/
def gKey : Grammar := [("S", [["S2"], ["a"]]), ("S2", [["a"]])]

/-- Witness for C8 (amended): a root-level `parse` of a missing rule raises
`KeyError`, and a `KeyError` from an alternative aborts the loop. -/
theorem c8_unknown_rule_amended_witness :
    parse 4 ["a"] 0 "missing" gKey = some .keyError ∧
      parse_alts (fun _ _ => some (.keyError : PResult (Nat × Tree)))
        ["a"] 0 "S" [["S2"], ["a"]] gKey = some .keyError :=
  ⟨(c8_unknown_rule_amended 3 ["a"] 0 "missing" gKey (fun _ _ => none) [] []).1 rfl,
    (c8_unknown_rule_amended 3 ["a"] 0 "S" gKey
      (fun _ _ => some (.keyError : PResult (Nat × Tree))) ["S2"] [["a"]]).2 rfl⟩

/-- C9: evaluation is total on parser output — for every tree
`parse_expression` returns (with the shipped grammar), `evaluate` never
reaches the defensive malformed-tree branch, under any environment. -/
theorem c9_no_malformed (tokens : List String) (t : Tree)
    (h : parse_expression tokens = some t) (env : Env) :
    evaluate t env ≠ .error .malformed := by
  unfold parse_expression at h
  cases hp : parse (6 * tokens.length + 6) tokens 0 "expression" bnf_table with
  | none => simp [hp] at h
  | some res =>
    cases res with
    | parseError => simp [hp] at h
    | keyError => simp [hp] at h
    | ok v =>
      obtain ⟨j, t2⟩ := v
      simp only [hp, Option.some.injEq] at h
      subst h
      have hg := parse_good (6 * tokens.length + 6) tokens 0 "expression" j t2 hp
      have hnum := (goodAs_num_iff (by decide) (by decide) t2).mp hg env
      rcases hnum with ⟨q, hq⟩ | hq | hq <;> rw [hq] <;> simp

/-- Witness for C9 at the accepted input `["1"]` and the empty
environment. -/
theorem c9_no_malformed_witness :
    parse_expression ["1"] = some (tE (tT (tF (tC "1")))) ∧
      evaluate (tE (tT (tF (tC "1")))) (fun _ => none) ≠ .error .malformed :=
  ⟨rfl, c9_no_malformed ["1"] (tE (tT (tF (tC "1")))) rfl (fun _ => none)⟩

/-- C10: right association — for every chain `a op1 b op2 c` of digits
joined by two same-level operators the parsed tree nests the right operand:
additive chains nest inside the right-recursive `expression` rule and
multiplicative chains (including division) inside the right-recursive
`term` rule; consequently `"8-2-1"` evaluates to `8 - (2 - 1) = 7`, not
`(8 - 2) - 1 = 5`, and `"8/2/2"` evaluates to `8 / (2 / 2) = 8`, not
`(8 / 2) / 2 = 2`. -/
theorem c10_right_associativity :
    (∀ a op1 b op2 c : String, a ∈ digitToks → op1 ∈ sumToks → b ∈ digitToks →
      op2 ∈ sumToks → c ∈ digitToks →
      parse_expression [a, op1, b, op2, c] =
        some (.node "expression" [tT (tF (tC a)), .node "sumop" [.leaf op1],
          .node "expression" [tT (tF (tC b)), .node "sumop" [.leaf op2],
            tE (tT (tF (tC c)))]])) ∧
      (∀ a op1 b op2 c : String, a ∈ digitToks → op1 ∈ prodToks →
        b ∈ digitToks → op2 ∈ prodToks → c ∈ digitToks →
        parse_expression [a, op1, b, op2, c] =
          some (tE (.node "term" [tF (tC a), .node "prodop" [.leaf op1],
            .node "term" [tF (tC b), .node "prodop" [.leaf op2],
              tT (tF (tC c))]]))) ∧
      (parse_expression (chars "8-2-1")).map (fun t => evaluate t env123) =
        some (.ok (.num 7)) ∧
      (parse_expression (chars "8-2-1")).map (fun t => evaluate t env123) ≠
        some (.ok (.num 5)) ∧
      (parse_expression (chars "8/2/2")).map (fun t => evaluate t env123) =
        some (.ok (.num 8)) ∧
      (parse_expression (chars "8/2/2")).map (fun t => evaluate t env123) ≠
        some (.ok (.num 2)) := by
  have hinner : evaluate (.node "expression" [tT (tF (tC "2")),
      .node "sumop" [.leaf "-"], tE (tT (tF (tC "1")))]) env123 = .ok (.num 1) :=
    evaluate_binop3 _ (Or.inl rfl) _ _ _ _ _ _ _ _ rfl rfl rfl
      (by norm_num [applyOp, show strToNat "2" = 2 from rfl,
        show strToNat "1" = 1 from rfl])
  have houter : evaluate (.node "expression" [tT (tF (tC "8")),
      .node "sumop" [.leaf "-"],
      .node "expression" [tT (tF (tC "2")), .node "sumop" [.leaf "-"],
        tE (tT (tF (tC "1")))]]) env123 = .ok (.num 7) :=
    evaluate_binop3 _ (Or.inl rfl) _ _ _ _ _ _ _ _ rfl rfl hinner
      (by norm_num [applyOp, show strToNat "8" = 8 from rfl])
  have hinnerd : evaluate (.node "term" [tF (tC "2"),
      .node "prodop" [.leaf "/"], tT (tF (tC "2"))]) env123 = .ok (.num 1) :=
    evaluate_binop3 _ (Or.inr rfl) _ _ _ _ _ _ _ _ rfl rfl rfl
      (by norm_num [applyOp, show strToNat "2" = 2 from rfl])
  have houterd : evaluate (.node "term" [tF (tC "8"),
      .node "prodop" [.leaf "/"],
      .node "term" [tF (tC "2"), .node "prodop" [.leaf "/"],
        tT (tF (tC "2"))]]) env123 = .ok (.num 8) :=
    evaluate_binop3 _ (Or.inr rfl) _ _ _ _ _ _ _ _ rfl rfl hinnerd
      (by norm_num [applyOp, show strToNat "8" = 8 from rfl])
  refine ⟨fun a op1 b op2 c ha h1 hb h2 hc =>
    chain_right_nested a op1 b op2 c ha hb hc h1 h2,
    fun a op1 b op2 c ha h1 hb h2 hc =>
      chain_right_nested_prod a op1 b op2 c ha hb hc h1 h2, ?_, ?_, ?_, ?_⟩
  · rw [show parse_expression (chars "8-2-1") =
      some (.node "expression" [tT (tF (tC "8")), .node "sumop" [.leaf "-"],
        .node "expression" [tT (tF (tC "2")), .node "sumop" [.leaf "-"],
          tE (tT (tF (tC "1")))]]) from rfl]
    show some (evaluate (.node "expression" [tT (tF (tC "8")),
      .node "sumop" [.leaf "-"],
      .node "expression" [tT (tF (tC "2")), .node "sumop" [.leaf "-"],
        tE (tT (tF (tC "1")))]]) env123) = _
    rw [houter]
  · rw [show parse_expression (chars "8-2-1") =
      some (.node "expression" [tT (tF (tC "8")), .node "sumop" [.leaf "-"],
        .node "expression" [tT (tF (tC "2")), .node "sumop" [.leaf "-"],
          tE (tT (tF (tC "1")))]]) from rfl]
    show some (evaluate (.node "expression" [tT (tF (tC "8")),
      .node "sumop" [.leaf "-"],
      .node "expression" [tT (tF (tC "2")), .node "sumop" [.leaf "-"],
        tE (tT (tF (tC "1")))]]) env123) ≠ _
    rw [houter]
    intro hcontra
    simp only [Option.some.injEq, Except.ok.injEq, Val.num.injEq] at hcontra
    norm_num at hcontra
  · rw [show parse_expression (chars "8/2/2") =
      some (tE (.node "term" [tF (tC "8"), .node "prodop" [.leaf "/"],
        .node "term" [tF (tC "2"), .node "prodop" [.leaf "/"],
          tT (tF (tC "2"))]])) from rfl]
    show some (evaluate (.node "expression" [.node "term" [tF (tC "8"),
      .node "prodop" [.leaf "/"],
      .node "term" [tF (tC "2"), .node "prodop" [.leaf "/"],
        tT (tF (tC "2"))]]]) env123) = _
    rw [evaluate_expression1, houterd]
  · rw [show parse_expression (chars "8/2/2") =
      some (tE (.node "term" [tF (tC "8"), .node "prodop" [.leaf "/"],
        .node "term" [tF (tC "2"), .node "prodop" [.leaf "/"],
          tT (tF (tC "2"))]])) from rfl]
    show some (evaluate (.node "expression" [.node "term" [tF (tC "8"),
      .node "prodop" [.leaf "/"],
      .node "term" [tF (tC "2"), .node "prodop" [.leaf "/"],
        tT (tF (tC "2"))]]]) env123) ≠ _
    rw [evaluate_expression1, houterd]
    intro hcontra
    simp only [Option.some.injEq, Except.ok.injEq, Val.num.injEq] at hcontra
    norm_num at hcontra

/-- Witness for C10's general parts at the chains `8 - 2 - 1` and
`8 / 2 / 2`. -/
theorem c10_right_associativity_witness :
    parse_expression ["8", "-", "2", "-", "1"] =
        some (.node "expression" [tT (tF (tC "8")), .node "sumop" [.leaf "-"],
          .node "expression" [tT (tF (tC "2")), .node "sumop" [.leaf "-"],
            tE (tT (tF (tC "1")))]]) ∧
      parse_expression ["8", "/", "2", "/", "2"] =
        some (tE (.node "term" [tF (tC "8"), .node "prodop" [.leaf "/"],
          .node "term" [tF (tC "2"), .node "prodop" [.leaf "/"],
            tT (tF (tC "2"))]])) :=
  ⟨c10_right_associativity.1 "8" "-" "2" "-" "1" (by decide) (by decide)
      (by decide) (by decide) (by decide),
    c10_right_associativity.2.1 "8" "/" "2" "/" "2" (by decide) (by decide)
      (by decide) (by decide) (by decide)⟩

end BnfLang
